import Mathlib

/-!
Verification development for the prometheus-weathermen exporter.

The definitions below are shallow embeddings of the Rust sources:
machine floats (`f64`/`f32`) are modelled as exact rationals `ℚ`,
`Result`/`anyhow::Result` as `Except`, the moka caches as association
lists, and process-global mutable state as explicitly threaded state
values.  Wall-clock time is a natural number of seconds.  Third-party
crate behaviour that the sources rely on (failsafe circuit breakers,
the geo closest-point search, bcrypt hashing) is modelled in clearly
marked definitions that follow the specification's description of that
behaviour.
-/

namespace Weathermen

/-! ## Units and coordinates (src/providers/units.rs) -/

/-- Model of `units::Coordinate`: a signed fractional degree value
(`f64` modelled as `ℚ`). -/
abbrev Coordinate := ℚ

/-- `Coordinate::eq` from units.rs: equality within tolerance `1e-7`
(`(self.0 - other.0).abs() < 0.000_000_1_f64`). -/
def coordinateEq (a b : Coordinate) : Bool :=
  |a - b| < 1 / 10000000

/-- Model of `units::Coordinates`. -/
structure Coordinates where
  latitude : Coordinate
  longitude : Coordinate
deriving DecidableEq, Repr

/-- Model of `units::Ratio` (percentage or fraction tagged value). -/
inductive RatioVal where
  | percentage (v : ℚ)
  | fraction (v : ℚ)
deriving DecidableEq, Repr

/-- `From<Ratio> for f64` in units.rs: percentages are divided by 100. -/
def RatioVal.asF64 : RatioVal → ℚ
  | .percentage v => v / 100
  | .fraction v => v

/-! ## Core data model (src/providers/mod.rs) -/

/-- Model of `providers::Weather`. -/
structure Weather where
  location : String
  source : String
  city : String
  coordinates : Coordinates
  distance : Option ℚ
  temperature : ℚ
  relative_humidity : Option RatioVal
deriving DecidableEq, Repr

/-- Model of `providers::WeatherRequest<Coordinates>`. -/
structure WeatherRequest where
  name : String
  query : Coordinates
deriving DecidableEq, Repr

/-! ## HTTP request cache and circuit breaker (src/providers/http_request.rs)

The moka cache `Cache<(Method, Url), String>` is modelled as an
association list keyed by method and URL.  Entries evicted by the TTL
policy are modelled as absent, so a successful lookup is exactly a
non-expired entry.  The URL host (`url.host_str()`) is carried as a
field of the URL model. -/

/-- Model of a `reqwest::Url`: the full URL text plus its host part. -/
structure Url where
  full : String
  host : Option String
deriving DecidableEq, Repr

/-- Cache key `(Method, Url)`. -/
abbrev ReqKey := String × Url

/-- Association-list lookup (model of `moka::sync::Cache::get`). -/
def alistGet {α β : Type} [DecidableEq α] (l : List (α × β)) (k : α) : Option β :=
  (l.find? (fun p => p.1 = k)).map Prod.snd

/-- Association-list upsert (model of `moka::sync::Cache::insert`):
replaces the value of an existing key in place, otherwise appends. -/
def alistInsert {α β : Type} [DecidableEq α] (l : List (α × β)) (k : α) (v : β) :
    List (α × β) :=
  match l with
  | [] => [(k, v)]
  | (k₀, v₀) :: rest =>
    if k₀ = k then (k, v) :: rest else (k₀, v₀) :: alistInsert rest k v

/-- `CONSECUTIVE_FAILURE_COUNT` from http_request.rs. -/
def CONSECUTIVE_FAILURE_COUNT : Nat := 3

/-- `EXPONENTIAL_BACKOFF_START_SECS` from http_request.rs. -/
def EXPONENTIAL_BACKOFF_START_SECS : Nat := 30

/-- `EXPONENTIAL_BACKOFF_MAX_SECS` from http_request.rs. -/
def EXPONENTIAL_BACKOFF_MAX_SECS : Nat := 300

/-- Modelled from the spec: the backoff window of the failsafe crate's
`exponential(Duration::from_secs(30), Duration::from_secs(300))`
backoff after `k` re-openings — an exponentially growing window
starting at 30 s and capped at 300 s. -/
def backoffSecs (k : Nat) : Nat :=
  min (EXPONENTIAL_BACKOFF_START_SECS * 2 ^ k) EXPONENTIAL_BACKOFF_MAX_SECS

/-- Modelled from the spec: state of one failsafe
`StateMachine<ConsecutiveFailures<Exponential>, ()>` circuit breaker.
`closed failures` counts consecutive failures so far; `opened u k` is
the open state rejecting calls until instant `u`, with `k` the index
into the exponential backoff sequence. -/
inductive BreakerState where
  | closed (failures : Nat)
  | opened (untilTime : Nat) (backoffIdx : Nat)
deriving DecidableEq, Repr

/-- A fresh circuit breaker as built by `Config::new().failure_policy(
consecutive_failures(3, exponential(30 s, 300 s))).build()`. -/
def freshBreaker : BreakerState := .closed 0

/-- Modelled from the spec: one `circuit_breaker.call(work)` of the
failsafe crate at time `now`.  The consecutive-failures policy opens
the breaker on the `CONSECUTIVE_FAILURE_COUNT`-th consecutive failure;
while open and inside the backoff window calls are rejected without
running `work`; after the window one probe runs: success closes the
breaker, failure re-opens it with the next (longer) window.  Returns
the call result, the next breaker state, and the number of times
`work` ran (0 or 1). -/
def breakerCall {α : Type} (st : BreakerState) (now : Nat)
    (work : Except String α) : Except String α × BreakerState × Nat :=
  match st with
  | .opened untilTime k =>
    if now < untilTime then
      (.error "Circuit breaker is open and prevented request", st, 0)
    else
      match work with
      | .ok a => (.ok a, .closed 0, 1)
      | .error e => (.error e, .opened (now + backoffSecs (k + 1)) (k + 1), 1)
  | .closed f =>
    match work with
    | .ok a => (.ok a, .closed 0, 1)
    | .error e =>
      if CONSECUTIVE_FAILURE_COUNT ≤ f + 1 then
        (.error e, .opened (now + backoffSecs 0) 0, 1)
      else
        (.error e, .closed (f + 1), 1)

/-- A breaker state that permits a call at time `now` (closed, or open
with an elapsed backoff window). -/
def breakerPermits (b : BreakerState) (now : Nat) : Prop :=
  match b with
  | .closed _ => True
  | .opened untilTime _ => untilTime ≤ now

/-- Outcome of one upstream HTTP send, the model of what
`client.request(method, url).send()` yields: either a transport
failure or a response with a status code and body. -/
inductive NetOutcome where
  | sendErr
  | resp (status : Nat) (body : String)
deriving DecidableEq, Repr

/-- Model of `request_url` from http_request.rs: propagates the send
error, rejects non-2xx statuses (`!response.status().is_success()`),
and otherwise returns the response. -/
def request_url (net : NetOutcome) (source : String) : Except String (Nat × String) :=
  match net with
  | .sendErr => .error "send error"
  | .resp status body =>
    if 200 ≤ status ∧ status ≤ 299 then .ok (status, body)
    else .error ("Request for provider " ++ source ++ " return status code")

/-- The process state threaded through `request_cached`: the moka body
cache, the global `CIRCUIT_BREAKER_REGISTRY` keyed by host, and the
current time in seconds. -/
structure HttpState where
  cache : List (ReqKey × String)
  registry : List (String × BreakerState)
  now : Nat
deriving Repr

/-- Model of `request_url_with_circuit_breaker` from http_request.rs:
runs the upstream request through the breaker; on `Err` (inner error or
rejection) returns the error; on `Ok` extracts the body via
`to_string`, inserts the body into the cache under `key`, and then
deserializes it.  Also returns the updated state and the number of
upstream loader invocations. -/
def request_url_with_circuit_breaker {R : Type}
    (breaker : BreakerState) (host : String)
    (source : String) (key : ReqKey)
    (toStr : Nat × String → Except String String)
    (deserialize : String → Except String R)
    (net : NetOutcome) (st : HttpState) :
    Except String R × HttpState × Nat :=
  match breakerCall breaker st.now (request_url net source) with
  | (.error e, breaker₁, cnt) =>
    (.error e, { st with registry := alistInsert st.registry host breaker₁ }, cnt)
  | (.ok response, breaker₁, cnt) =>
    let st₁ : HttpState := { st with registry := alistInsert st.registry host breaker₁ }
    match toStr response with
    | .error e => (.error e, st₁, cnt)
    | .ok body =>
      let st₂ : HttpState := { st₁ with cache := alistInsert st₁.cache key body }
      (deserialize body, st₂, cnt)

/-- The fetch half of `request_cached` (everything after the cache
lookup missed): extract the host, look up or lazily create the
per-host circuit breaker (the read-lock fast path and the
double-checked write-lock slow path collapse to this lookup-or-insert)
and run `request_url_with_circuit_breaker`. -/
def request_cached_fetch {R : Type}
    (source : String) (method : String) (url : Url)
    (toStr : Nat × String → Except String String)
    (deserialize : String → Except String R)
    (net : NetOutcome) (st : HttpState) :
    Except String R × HttpState × Nat :=
  match url.host with
  | none => (.error "Could not extract host from URL", st, 0)
  | some host =>
    let breaker := (alistGet st.registry host).getD freshBreaker
    request_url_with_circuit_breaker breaker host source (method, url)
      toStr deserialize net st

/-- Model of `request_cached` from http_request.rs: look the key up in
the cache; on a hit return the deserialized cached body without any
upstream request; on a miss run the fetch path.  Returns the result,
the updated state, and how many times the upstream loader ran. -/
def request_cached {R : Type}
    (source : String) (method : String) (url : Url)
    (toStr : Nat × String → Except String String)
    (deserialize : String → Except String R)
    (net : NetOutcome) (st : HttpState) :
    Except String R × HttpState × Nat :=
  match alistGet st.cache (method, url) with
  | some value => (deserialize value, st, 0)
  | none => request_cached_fetch source method url toStr deserialize net st

/-- Two concurrent callers of `request_cached` for the same key, under
the schedule where both cache lookups happen before either fetch
completes (the source holds no lock between its `cache.get` and the
upstream request, so this interleaving is legal).  Both callers observe
a miss and both run the fetch path, the second against the state left
by the first.  Returns both results, the final state, and the total
number of upstream loader invocations. -/
def request_cached_two_concurrent_misses {R : Type}
    (source : String) (method : String) (url : Url)
    (toStr : Nat × String → Except String String)
    (deserialize : String → Except String R)
    (net : NetOutcome) (st : HttpState) :
    (Except String R × Except String R) × HttpState × Nat :=
  let lookupA := alistGet st.cache (method, url)
  let lookupB := alistGet st.cache (method, url)
  match lookupA, lookupB with
  | some v, _ => ((deserialize v, deserialize v), st, 0)
  | none, some v => ((deserialize v, deserialize v), st, 0)
  | none, none =>
    let (resA, st₁, cntA) := request_cached_fetch source method url toStr deserialize net st
    let (resB, st₂, cntB) := request_cached_fetch source method url toStr deserialize net st₁
    ((resA, resB), st₂, cntA + cntB)

/-! ## Authentication (src/http_server.rs, src/bcrypt.rs)

bcrypt hashes are strings; `bcrypt::verify` is an abstract function
parameter `verify : password → hash → Except String Bool` (the crate's
`Result<bool, BcryptError>`).  `authenticate` is instrumented to also
return the list of `(password, hash)` pairs passed to `bcrypt::verify`
during the call, so that "exactly one bcrypt verification" is a
provable statement. -/

/-- Model of `http_server::Granted`. -/
inductive Granted where
  | notRequired
  | succeeded
deriving DecidableEq, Repr

/-- Model of `http_server::Denied`. -/
inductive Denied where
  | unauthorized
  | forbidden
deriving DecidableEq, Repr

/-- `Result<Granted, Denied>`. -/
abbrev AuthResult := Except Denied Granted

/-- Model of `rocket_basicauth::BasicAuth`. -/
structure BasicAuth where
  username : String
  password : String
deriving DecidableEq, Repr

/-- The credentials store: username to bcrypt hash string, iterated in
list order (`for (username, hash) in credentials`). -/
abbrev CredentialsStore := List (String × String)

/-- The process-wide `AUTHENTICATION_CACHE` keyed by
`(username, password)`. -/
abbrev AuthCache := List ((String × String) × AuthResult)

/-- `Result::is_err`. -/
def isErr {ε α : Type} : Except ε α → Bool
  | .error _ => true
  | .ok _ => false

/-- The `match bcrypt::verify(password, hash)` arm of `authenticate`:
`Ok(true)` grants, `Ok(false)` and `Err(_)` deny with `Forbidden`. -/
def verifyOutcome (verify : String → String → Except String Bool)
    (password hash : String) : AuthResult :=
  match verify password hash with
  | .ok true => .ok .succeeded
  | .ok false => .error .forbidden
  | .error _ => .error .forbidden

/-- Model of moka's `entry(key).or_insert_with_if(init, replace_if)`:
if the key is absent, or present with a value on which `replaceIf`
holds, (re-)run `init` and store its value; otherwise return the
cached value untouched.  The `Bool` reports whether `init` ran. -/
def orInsertWithIf {α β : Type} [DecidableEq α]
    (cache : List (α × β)) (key : α) (init : Unit → β) (replaceIf : β → Bool) :
    β × List (α × β) × Bool :=
  match alistGet cache key with
  | some v =>
    if replaceIf v then
      let nv := init ()
      (nv, alistInsert cache key nv, true)
    else (v, cache, false)
  | none =>
    let nv := init ()
    (nv, alistInsert cache key nv, true)

/-- Model of `http_server::authenticate`: scan the store for the
presented username; on a match serve the result through
`AUTHENTICATION_CACHE.entry(..).or_insert_with_if(.., Result::is_err)`;
with no match run one `bcrypt::verify` against the pre-computed default
hash (to keep timing independent of user existence) and deny.  Returns
the result, the updated cache, and the `(password, hash)` arguments of
every `bcrypt::verify` performed. -/
def authenticate (verify : String → String → Except String Bool)
    (credentials : CredentialsStore) (auth : BasicAuth) (default_hash : String)
    (cache : AuthCache) : AuthResult × AuthCache × List (String × String) :=
  match credentials.find? (fun p => p.1 = auth.username) with
  | some (_, hash) =>
    let (v, cache₁, ran) := orInsertWithIf cache (auth.username, auth.password)
      (fun _ => verifyOutcome verify auth.password hash) isErr
    (v, cache₁, if ran then [(auth.password, hash)] else [])
  | none =>
    (.error .forbidden, cache, [(auth.password, default_hash)])

/-- Model of `http_server::maybe_authenticate`. -/
def maybe_authenticate (verify : String → String → Except String Bool)
    (credentials_configured : Option (CredentialsStore × String))
    (credentials_presented : Option BasicAuth)
    (cache : AuthCache) : AuthResult × AuthCache × List (String × String) :=
  match credentials_configured, credentials_presented with
  | some (store, default_hash), some auth =>
    authenticate verify store auth default_hash cache
  | some _, none => (.error .unauthorized, cache, [])
  | none, _ => (.ok .notRequired, cache, [])

/-- Splitting a character list on a separator, with Rust
`str::split(sep)` semantics (the empty string yields one empty part;
a trailing separator yields a trailing empty part). -/
def splitCharAux (sep : Char) : List Char → List (List Char)
  | [] => [[]]
  | c :: cs =>
    match splitCharAux sep cs with
    | [] => [[]]
    | r :: rs => if c = sep then [] :: r :: rs else (c :: r) :: rs

/-- `str::split(sep)` on a string, as a list of parts. -/
def splitOnChar (sep : Char) (s : String) : List String :=
  (splitCharAux sep s.data).map String.mk

/-- Decimal digits to a number; `none` on an empty or non-digit
input. -/
def parseDigits : List Char → Option Nat
  | [] => none
  | cs =>
    cs.foldl
      (fun acc c =>
        match acc with
        | none => none
        | some n => if c.isDigit then some (n * 10 + (c.toNat - 48)) else none)
      (some 0)

/-- `parse::<u32>` on a string: optional leading `+`, then at least one
decimal digit, value below `2^32`. -/
def parseU32 (s : String) : Option Nat :=
  let cs := match s.data with
    | '+' :: rest => rest
    | cs => cs
  match parseDigits cs with
  | some n => if n < 2 ^ 32 then some n else none
  | none => none

/-- Model of `bcrypt::get_cost`: split the hash on `$`, parse part 2 as
`u32`, and keep it only when at least 4. -/
def get_cost (hash : String) : Option Nat :=
  match (splitOnChar '$' hash).get? 2 with
  | some part => (parseU32 part).filter (fun v => 4 ≤ v)
  | none => none

/-- `bcrypt::DEFAULT_COST`. -/
def BCRYPT_DEFAULT_COST : Nat := 12

/-- The decimal digit character for `d < 10`. -/
def digitChar (d : Nat) : Char := Char.ofNat (48 + d)

/-- Zero-padded two-digit cost as the bcrypt crate renders it with
`{:02}` (costs of three or more digits do not occur: the crate rejects
costs above 31). -/
def costPad2 (c : Nat) : String :=
  if c < 10 then String.mk ['0', digitChar c]
  else String.mk [digitChar (c / 10), digitChar (c % 10)]

/-- Modelled from the spec: `bcrypt::hash(password, cost)`.  The crate
accepts costs 4..=31 and produces a `$2b$<cost>$<salt+digest>` string;
the random salt and digest are abstracted into a deterministic tail,
since only the cost prefix is observable to `get_cost`. -/
def bcryptHash (password : String) (cost : Nat) : Except String String :=
  if 4 ≤ cost ∧ cost ≤ 31 then
    .ok ("$2b$" ++ costPad2 cost ++ "$" ++ "modelsalt." ++ password)
  else .error "InvalidCost"

/-- Model of `bcrypt::get_default_hash`: hash the sentinel password
`"fakepassword"` with the given cost (default `DEFAULT_COST`),
discarding errors. -/
def get_default_hash (cost : Option Nat) : Option String :=
  (bcryptHash "fakepassword" (cost.getD BCRYPT_DEFAULT_COST)).toOption

/-- Maximum of two `Option Nat` under Rust's `Option` ordering
(`None < Some _`). -/
def optMax : Option Nat → Option Nat → Option Nat
  | none, b => b
  | some a, none => some a
  | some a, some b => some (max a b)

/-- Model of `http_server::get_max_costs_from_credentials_store`:
`store.into_iter().map(|(_, hash)| get_cost(&hash)).max().flatten()`. -/
def get_max_costs_from_credentials_store (store : CredentialsStore) : Option Nat :=
  (store.map (fun p => get_cost p.2)).foldl optMax none

/-- The credential configuration performed by `configure_rocket`:
`config.auth.and_then(|store| get_default_hash(max_costs(&store))
.map(|default_hash| (store, default_hash)))`. -/
def configuredCredentials (auth : Option CredentialsStore) :
    Option (CredentialsStore × String) :=
  auth.bind fun store =>
    (get_default_hash (get_max_costs_from_credentials_store store)).map
      fun default_hash => (store, default_hash)

/-! ## Content negotiation (src/http_server.rs)

rocket's `QMediaType` carries a media type with parameters and an
optional quality weight (`f32`, modelled as `ℚ`).  rocket compares
media types by top and sub part only (parameters are not part of
`MediaType` equality) and its specificity ranks `a/b` above `a/*`
above `*/*`; both behaviours are relied upon by the repository's own
tests.  The sorting is Rust's `slice::sort_by`, a stable insertion
sort for slices of this size, modelled here as a stable insertion
sort driven by the strict outcome of the comparator. -/

/-- Model of `rocket::http::MediaType`: top/sub parts (lower-case) and
the parameter list. -/
structure MediaType where
  top : String
  sub : String
  params : List (String × String)
deriving DecidableEq, Repr

/-- Model of `rocket::http::QMediaType`: a media type with an optional
quality weight. -/
structure QMediaType where
  mediaType : MediaType
  weight : Option ℚ
deriving DecidableEq, Repr

/-- rocket's `MediaType::specificity`: `text/plain` beats `text/*`
beats `*/*` — the number of non-wildcard components. -/
def specificity (m : MediaType) : Nat :=
  (if m.top = "*" then 0 else 1) + (if m.sub = "*" then 0 else 1)

/-- Rust's `PartialOrd::partial_cmp` on two rationals followed by
`unwrap_or(Ordering::Equal)`. -/
def cmpQ (a b : ℚ) : Ordering :=
  if a < b then .lt else if b < a then .gt else .eq

/-- `Ord::cmp` on naturals. -/
def cmpNat (a b : Nat) : Ordering :=
  if a < b then .lt else if b < a then .gt else .eq

/-- The comparator closure of `sort_media_types_by_priority`:
`right.weight().map_or(Greater, |rw| left.weight().map_or(Less,
|lw| rw.partial_cmp(&lw).unwrap_or(Equal)))
.then_with(|| right.specificity().cmp(&left.specificity()))
.then_with(|| right.params().count().cmp(&left.params().count()))`. -/
def mediaCompare (left right : QMediaType) : Ordering :=
  (match right.weight with
   | none => Ordering.gt
   | some rw =>
     match left.weight with
     | none => Ordering.lt
     | some lw => cmpQ rw lw).then
    ((cmpNat (specificity right.mediaType) (specificity left.mediaType)).then
      (cmpNat right.mediaType.params.length left.mediaType.params.length))

/-- The strict "sorts before" relation induced by the comparator:
`compare(a, b) == Less`. -/
def mediaLt (a b : QMediaType) : Bool :=
  mediaCompare a b = Ordering.lt

/-- One step of Rust's stable insertion sort on the reversed prefix
(head = rightmost element placed so far): the new element `x` moves
left past `p` exactly while `lt x p`. -/
def insRev {α : Type} (lt : α → α → Bool) (x : α) : List α → List α
  | [] => [x]
  | p :: ps => if lt x p then p :: insRev lt x ps else x :: p :: ps

/-- Rust's `slice::sort_by` for short slices (stable insertion sort),
parameterized by the strict comparator outcome. -/
def sortByLt {α : Type} (lt : α → α → Bool) (l : List α) : List α :=
  (l.foldl (fun racc x => insRev lt x racc) []).reverse

/-- Model of `sort_media_types_by_priority`. -/
def sort_media_types_by_priority (accept : List QMediaType) : List QMediaType :=
  sortByLt mediaLt accept

/-- Model of `prometheus::Format`. -/
inductive Format where
  | prometheus
  | openMetrics
deriving DecidableEq, Repr

/-- The openmetrics media type of `get_openmetrics_content_type`
(parameters `charset=utf-8`, `version=1.0.0`). -/
def openmetricsMediaType : MediaType :=
  ⟨"application", "openmetrics-text", [("charset", "utf-8"), ("version", "1.0.0")]⟩

/-- The text/plain media type of `get_text_plain_content_type`
(parameters `charset=utf-8`, `version=0.0.4`). -/
def textPlainMediaType : MediaType :=
  ⟨"text", "plain", [("charset", "utf-8"), ("version", "0.0.4")]⟩

/-- `MEDIA_TYPE_FORMATS`: the candidate media types in lookup order. -/
def MEDIA_TYPE_FORMATS : List (MediaType × Format) :=
  [(openmetricsMediaType, .openMetrics), (textPlainMediaType, .prometheus)]

/-- Model of `media_type_matches`: rocket media-type equality (top and
sub part, parameters ignored) or a same-top wildcard match. -/
def media_type_matches (left right : MediaType) : Bool :=
  (left.top = right.top ∧ left.sub = right.sub) ∨
    (left.top = right.top ∧ (left.sub = "*" ∨ right.sub = "*"))

/-- The walk of `get_metrics_format` over an already sorted list:
return the format of the first `MEDIA_TYPE_FORMATS` entry matching an
entry, defaulting to Prometheus. -/
def walkFormats (sorted : List QMediaType) : Format :=
  (sorted.findSome?
    (fun given =>
      MEDIA_TYPE_FORMATS.findSome?
        (fun p => if media_type_matches p.1 given.mediaType then some p.2 else none))).getD
    .prometheus

/-- Model of `get_metrics_format`: sort by priority, then walk. -/
def get_metrics_format (accept : List QMediaType) : Format :=
  walkFormats (sort_media_types_by_priority accept)

/-- Strict lexicographic order on (weight, specificity, parameter
count) rank triples, all components descending in priority. -/
def rankLt (a b : ℚ × Nat × Nat) : Prop :=
  a.1 < b.1 ∨ (a.1 = b.1 ∧ (a.2.1 < b.2.1 ∨ (a.2.1 = b.2.1 ∧ a.2.2 < b.2.2)))

instance rankLt.instDecidable (a b : ℚ × Nat × Nat) : Decidable (rankLt a b) := by
  unfold rankLt
  infer_instance

/-- The rank triple of a weighted media type. -/
def mediaRank (m : QMediaType) (w : ℚ) : ℚ × Nat × Nat :=
  (w, specificity m.mediaType, m.mediaType.params.length)

/-- The amended priority order (following the spec's words as far as
the code realises them): an entry without a weight sorts before every
weighted entry, weighted entries sort by descending weight, then
descending specificity, then descending parameter count, and two
entries that both lack a weight are tied (their input order is kept by
the stable sort). -/
def specLtAmended (a b : QMediaType) : Prop :=
  match a.weight, b.weight with
  | none, none => False
  | none, some _ => True
  | some _, none => False
  | some aw, some bw => rankLt (mediaRank b bw) (mediaRank a aw)

/-- The total order claimed by the spec sentence: like
`specLtAmended`, but two entries without weights are further compared
by descending specificity and then descending parameter count. -/
def claimLt (a b : QMediaType) : Bool :=
  match a.weight, b.weight with
  | none, none =>
    decide (specificity b.mediaType < specificity a.mediaType ∨
      (specificity b.mediaType = specificity a.mediaType ∧
        b.mediaType.params.length < a.mediaType.params.length))
  | none, some _ => true
  | some _, none => false
  | some aw, some bw => decide (rankLt (mediaRank b bw) (mediaRank a aw))

/-! ## Fan-out collection (src/http_server.rs)

`serve_metrics` spawns one unit per task and `wait_for_metrics`
collects the join results: successes are appended, provider errors are
logged and dropped, and the aggregate is rendered by the encoder.  The
completed task outcomes are modelled as the list of provider results
in join order; the encoder is a parameter so that its failure case is
expressible. -/

/-- Model of `wait_for_metrics`: drop provider errors, keep successes,
encode the aggregate. -/
def wait_for_metrics (encode : Format → List Weather → Except String String)
    (format : Format) (results : List (Except String Weather)) :
    Except String String :=
  encode format (results.filterMap (fun r => r.toOption))

/-- Model of `serve_metrics`: a 200 response with the encoded body, or
a 500 with the fixed error body when the encoder fails. -/
def serve_metrics (encode : Format → List Weather → Except String String)
    (format : Format) (results : List (Except String Weather)) :
    Nat × String :=
  match wait_for_metrics encode format results with
  | .error _ => (500, "Error while fetching weather data. Check the logs")
  | .ok body => (200, body)

/-! ## Metrics encoder (src/prometheus.rs)

`format_metrics` registers a `weather`-prefixed registry: a
temperature family always, humidity and distance families lazily on
first occurrence, then renders it with
`prometheus_client::encoding::text::encode`, whose output carries
`# HELP`/`# TYPE`/`# UNIT` lines per family, one sample line per label
set, and a final `# EOF` line (the repository's tests pin this exact
shape).  Output is modelled as the list of lines.  Numeric sample
values are rendered by an exact decimal printer; coordinates use the
`{:.7}` rendering of `units::Coordinate`. -/

/-- `CARGO_PKG_NAME`, pinned by the repository's encoder tests. -/
def NAME : String := "prometheus-weathermen"

/-- Model of `CARGO_PKG_VERSION` (an opaque version label; no claim
depends on its value). -/
def VERSION : String := "model"

/-- Model of `prometheus::Labels`, all fields rendered. -/
structure Labels where
  version : String
  source : String
  location : String
  city : String
  latitude : String
  longitude : String
deriving DecidableEq, Repr

/-- Left-pad a numeral with zeros to the given width. -/
def padZeros (width : Nat) (s : String) : String :=
  if s.length < width then String.mk (List.replicate (width - s.length) '0') ++ s
  else s

/-- The `{:.7}` display of `units::Coordinate`: seven fractional
digits (the fractional part of the model is truncated toward zero;
the repository only renders values that are exact at 7 digits). -/
def formatQ7 (q : ℚ) : String :=
  let n : Nat := (|q| * 10 ^ 7).floor.toNat
  (if q < 0 then "-" else "") ++
    toString (n / 10 ^ 7) ++ "." ++ padZeros 7 (toString (n % 10 ^ 7))

/-- Exact decimal rendering of a sample value when the denominator
divides a power of ten, otherwise a fraction display. -/
def qValueStr (q : ℚ) : String :=
  match (List.range 31).find? (fun k => q.den ∣ 10 ^ k) with
  | some k =>
    if k = 0 then toString q.num
    else
      let scaled : Int := q.num * ((10 ^ k) / (q.den : Int))
      let mag : Nat := scaled.natAbs
      (if scaled < 0 then "-" else "") ++
        toString (mag / 10 ^ k) ++ "." ++ padZeros k (toString (mag % 10 ^ k))
  | none => toString q.num ++ "/" ++ toString q.den

/-- The label set built for one weather record in `format_metrics`. -/
def Labels.ofWeather (w : Weather) : Labels :=
  { version := VERSION
    source := w.source
    location := w.location
    city := w.city
    latitude := formatQ7 w.coordinates.latitude
    longitude := formatQ7 w.coordinates.longitude }

/-- OpenMetrics rendering of a label set, in declaration order. -/
def Labels.render (l : Labels) : String :=
  "\x7bversion=\"" ++ l.version ++ "\",source=\"" ++ l.source ++
    "\",location=\"" ++ l.location ++ "\",city=\"" ++ l.city ++
    "\",latitude=\"" ++ l.latitude ++ "\",longitude=\"" ++ l.longitude ++ "\"\x7d"

/-- The lazily registered families, in the order they may first be
registered during the iteration over the records. -/
inductive LazyFamily where
  | humidity
  | distance
deriving DecidableEq, Repr

/-- Accumulator of the record iteration in `format_metrics`: samples
per family (`Family::get_or_create(&labels).set(v)` is an upsert) and
the registration order of the lazy families. -/
structure EncoderAcc where
  tempSamples : List (Labels × ℚ)
  humSamples : List (Labels × ℚ)
  distSamples : List (Labels × ℚ)
  lazyOrder : List LazyFamily
deriving Repr

/-- One iteration of the `for weather in weathers` loop of
`format_metrics`. -/
def encodeStep (acc : EncoderAcc) (w : Weather) : EncoderAcc :=
  let labels := Labels.ofWeather w
  let acc := { acc with tempSamples := alistInsert acc.tempSamples labels w.temperature }
  let acc :=
    match w.relative_humidity with
    | some r =>
      { acc with
        humSamples := alistInsert acc.humSamples labels r.asF64
        lazyOrder :=
          if acc.lazyOrder.contains .humidity then acc.lazyOrder
          else acc.lazyOrder ++ [.humidity] }
    | none => acc
  match w.distance with
  | some m =>
    { acc with
      distSamples := alistInsert acc.distSamples labels m
      lazyOrder :=
        if acc.lazyOrder.contains .distance then acc.lazyOrder
        else acc.lazyOrder ++ [.distance] }
  | none => acc

/-- Whether one weather record triggers the lazy registration of a
family. -/
def famTrigger : LazyFamily → Weather → Bool
  | .humidity, w => w.relative_humidity.isSome
  | .distance, w => w.distance.isSome

/-- The `# HELP`/`# TYPE`/`# UNIT` block plus sample lines of one
family, as `prometheus_client`'s text encoder emits it. -/
def familyLines (name unit help : String) (samples : List (Labels × ℚ)) :
    List String :=
  let full := "weather_" ++ name ++ "_" ++ unit
  ("# HELP " ++ full ++ " " ++ NAME ++ " " ++ help ++ ".") ::
    ("# TYPE " ++ full ++ " gauge") ::
      ("# UNIT " ++ full ++ " " ++ unit) ::
        samples.map (fun s => full ++ s.1.render ++ " " ++ qValueStr s.2)

/-- The block of one lazy family. -/
def lazyFamilyLines (acc : EncoderAcc) : LazyFamily → List String
  | .humidity => familyLines "relative_humidity" "ratio" "relative humidity" acc.humSamples
  | .distance =>
    familyLines "station_distance" "meters" "weather station distance in meters"
      acc.distSamples

/-- Model of `prometheus::format_metrics`, as the list of output
lines.  The `format` argument is the `_format` parameter of the
source: it is bound but never used, and the OpenMetrics text encoder
runs for either value, ending with `# EOF`. -/
def format_metrics (format : Format) (weathers : List Weather) : List String :=
  let _ := format
  let acc := weathers.foldl encodeStep ⟨[], [], [], []⟩
  (familyLines "temperature" "celsius" "temperature" acc.tempSamples ++
      (acc.lazyOrder.map (lazyFamilyLines acc)).flatten) ++ ["# EOF"]

/-- `format_metrics` as the `anyhow::Result<String>` of the source
(the model encoder cannot fail), for use by `serve_metrics`. -/
def format_metrics_result (format : Format) (weathers : List Weather) :
    Except String String :=
  .ok (String.intercalate "\n" (format_metrics format weathers) ++ "\n")

/-! ## DWD nearest station (src/providers/deutscher_wetterdienst.rs) -/

/-- Model of the DWD `WeatherStation` record. -/
structure WeatherStation where
  station_id : String
  name : String
  latitude : ℚ
  longitude : ℚ
deriving DecidableEq, Repr

/-- The geo `Point` built for a station:
`Point::new(longitude, latitude)`. -/
def stationPoint (s : WeatherStation) : ℚ × ℚ :=
  (s.longitude, s.latitude)

/-- Squared planar (Euclidean) distance between two points. -/
def distSq (a b : ℚ × ℚ) : ℚ :=
  (a.1 - b.1) ^ 2 + (a.2 - b.2) ^ 2

/-- Modelled from the spec: `MultiPoint::closest_point` of the geo
crate — the Euclidean nearest of the given points to `p`, ties broken
in favour of the earliest point (`Closest::Indeterminate`, i.e.
`none`, only for an empty collection). -/
def closest_point (points : List (ℚ × ℚ)) (p : ℚ × ℚ) : Option (ℚ × ℚ) :=
  points.foldl
    (fun best q =>
      match best with
      | none => some q
      | some b => if distSq q p < distSq b p then some q else best)
    none

/-- Model of `find_closest_weather_station`: run the geo closest-point
search over the station points, then identify the winning station as
the first station whose longitude and latitude are `Coordinate`-equal
(tolerance `1e-7`) to the returned point. -/
def find_closest_weather_station (coords : Coordinates)
    (weather_stations : List WeatherStation) : Except String WeatherStation :=
  match closest_point (weather_stations.map stationPoint)
      (coords.longitude, coords.latitude) with
  | some closest =>
    match weather_stations.find?
        (fun station =>
          coordinateEq station.longitude closest.1 &&
            coordinateEq station.latitude closest.2) with
    | some station => .ok station
    | none => .error "Could not find matching station"
  | none => .error "Could not find closest point"

/-! ## Meteoblue provider (src/providers/meteoblue.rs) -/

/-- Model of `MeteoblueResponseMetadata`. -/
structure MeteoblueResponseMetadata where
  name : String
  coordinates : Coordinates
deriving DecidableEq, Repr

/-- Model of `MeteoblueResponse`. -/
structure MeteoblueResponse where
  metadata : MeteoblueResponseMetadata
  data_current_temperature : ℚ
deriving DecidableEq, Repr

/-- The `Weather` record built by `Meteoblue::for_coordinates` from a
fetched and deserialized response.  `calc_distance` abstracts
`calculate_distance` (the haversine distance, a transcendental
function of the coordinates). -/
def meteoblue_weather (calc_distance : Coordinates → Coordinates → ℚ)
    (request : WeatherRequest) (response : MeteoblueResponse) : Weather :=
  { source := "com.meteoblue"
    location := request.name
    city :=
      if response.metadata.name = "" then request.name
      else response.metadata.name
    coordinates := response.metadata.coordinates
    distance := some (calc_distance request.query response.metadata.coordinates)
    temperature := response.data_current_temperature
    relative_humidity := none }

/-! ## Helper lemmas -/

theorem alistGet_alistInsert_self {α β : Type} [DecidableEq α]
    (l : List (α × β)) (k : α) (v : β) :
    alistGet (alistInsert l k v) k = some v := by
  induction l with
  | nil => simp [alistGet, alistInsert, List.find?]
  | cons hd tl ih =>
    obtain ⟨k₀, v₀⟩ := hd
    by_cases hk : k₀ = k
    · simp [alistInsert, hk, alistGet, List.find?]
    · simpa [alistInsert, hk, alistGet, List.find?] using ih

theorem insRev_perm {α : Type} (lt : α → α → Bool) (x : α) :
    ∀ r : List α, (insRev lt x r).Perm (x :: r)
  | [] => by simp [insRev]
  | p :: ps => by
    unfold insRev
    by_cases h : lt x p
    · simpa [h] using ((insRev_perm lt x ps).cons p).trans (List.Perm.swap x p ps)
    · simp [h]

theorem mem_insRev {α : Type} (lt : α → α → Bool) (x a : α) (r : List α) :
    a ∈ insRev lt x r ↔ a = x ∨ a ∈ r := by
  rw [(insRev_perm lt x r).mem_iff]
  simp

theorem foldl_insRev_perm_aux {α : Type} (lt : α → α → Bool) :
    ∀ (l racc : List α),
      (l.foldl (fun racc x => insRev lt x racc) racc).Perm (l.reverse ++ racc)
  | [], racc => by simp
  | x :: l, racc => by
    have ih := foldl_insRev_perm_aux lt l (insRev lt x racc)
    have hperm : (l.reverse ++ insRev lt x racc).Perm (l.reverse ++ (x :: racc)) :=
      (insRev_perm lt x racc).append_left l.reverse
    have heq : l.reverse ++ (x :: racc) = (x :: l).reverse ++ racc := by simp
    have goal1 : (l.foldl (fun racc x => insRev lt x racc) (insRev lt x racc)).Perm
        ((x :: l).reverse ++ racc) := heq ▸ ih.trans hperm
    simpa using goal1

theorem sortByLt_perm {α : Type} (lt : α → α → Bool) (l : List α) :
    (sortByLt lt l).Perm l := by
  unfold sortByLt
  have h := foldl_insRev_perm_aux lt l []
  simp only [List.append_nil] at h
  exact ((List.reverse_perm _).trans h).trans (List.reverse_perm l)

theorem insRev_pairwise {α : Type} (lt : α → α → Bool)
    (hasym : ∀ a b, lt a b = true → lt b a = false)
    (hshift : ∀ x p q, lt x q = true → lt x p = true ∨ lt p q = true)
    (x : α) :
    ∀ r : List α, r.Pairwise (fun a b => lt a b = false) →
      (insRev lt x r).Pairwise (fun a b => lt a b = false)
  | [], _ => by simp [insRev]
  | p :: ps, hp => by
    rw [List.pairwise_cons] at hp
    obtain ⟨hhead, htail⟩ := hp
    unfold insRev
    by_cases h : lt x p = true
    · rw [if_pos h, List.pairwise_cons]
      refine ⟨?_, insRev_pairwise lt hasym hshift x ps htail⟩
      intro q hq
      rcases (mem_insRev lt x q ps).mp hq with hqx | hq
      · rw [hqx]
        exact hasym x p h
      · exact hhead q hq
    · rw [if_neg h, List.pairwise_cons]
      refine ⟨?_, List.pairwise_cons.mpr ⟨hhead, htail⟩⟩
      intro q hq
      rcases List.mem_cons.mp hq with rfl | hq
      · exact Bool.eq_false_iff.mpr h
      · by_cases hxq : lt x q = true
        · rcases hshift x p q hxq with hxp | hpq
          · exact absurd hxp h
          · rw [hhead q hq] at hpq
            exact absurd hpq (by simp)
        · exact Bool.eq_false_iff.mpr hxq

theorem foldl_insRev_pairwise {α : Type} (lt : α → α → Bool)
    (hasym : ∀ a b, lt a b = true → lt b a = false)
    (hshift : ∀ x p q, lt x q = true → lt x p = true ∨ lt p q = true) :
    ∀ (l racc : List α), racc.Pairwise (fun a b => lt a b = false) →
      (l.foldl (fun racc x => insRev lt x racc) racc).Pairwise
        (fun a b => lt a b = false)
  | [], _, h => h
  | x :: l, racc, h =>
    foldl_insRev_pairwise lt hasym hshift l (insRev lt x racc)
      (insRev_pairwise lt hasym hshift x racc h)

theorem sortByLt_pairwise {α : Type} (lt : α → α → Bool)
    (hasym : ∀ a b, lt a b = true → lt b a = false)
    (hshift : ∀ x p q, lt x q = true → lt x p = true ∨ lt p q = true)
    (l : List α) :
    (sortByLt lt l).Pairwise (fun a b => lt b a = false) := by
  unfold sortByLt
  rw [List.pairwise_reverse]
  exact foldl_insRev_pairwise lt hasym hshift l [] (by simp)

theorem filter_insRev {α : Type} (lt : α → α → Bool) (P : α → Bool) (x : α)
    (hx : P x = true → ∀ p, P p = true → lt x p = false) :
    ∀ r : List α,
      (insRev lt x r).filter P =
        if P x then x :: r.filter P else r.filter P
  | [] => by
    unfold insRev
    by_cases h : P x = true <;> simp [List.filter, h]
  | p :: ps => by
    unfold insRev
    by_cases h : lt x p = true
    · rw [if_pos h]
      by_cases hPx : P x = true
      · have hPp : P p = false := by
          by_cases hPp : P p = true
          · rw [hx hPx p hPp] at h
            exact absurd h (by simp)
          · exact Bool.eq_false_iff.mpr hPp
        rw [List.filter_cons_of_neg (by simp [hPp]),
          filter_insRev lt P x hx ps, if_pos hPx, if_pos hPx,
          List.filter_cons_of_neg (by simp [hPp])]
      · rw [List.filter_cons, filter_insRev lt P x hx ps, if_neg hPx, if_neg hPx,
          List.filter_cons]
    · rw [if_neg h, List.filter_cons]

theorem foldl_insRev_filter {α : Type} (lt : α → α → Bool) (P : α → Bool)
    (hclass : ∀ a b, P a = true → P b = true → lt a b = false) :
    ∀ (l racc : List α),
      (l.foldl (fun racc x => insRev lt x racc) racc).filter P =
        (l.filter P).reverse ++ racc.filter P
  | [], racc => by simp
  | x :: l, racc => by
    have ih := foldl_insRev_filter lt P hclass l (insRev lt x racc)
    have hins := filter_insRev lt P x (fun hPx p hPp => hclass x p hPx hPp) racc
    by_cases hPx : P x = true
    · rw [if_pos hPx] at hins
      simp only [List.foldl_cons, ih, hins, List.filter_cons_of_pos hPx,
        List.reverse_cons, List.append_assoc]
      rfl
    · rw [if_neg hPx] at hins
      simp only [List.foldl_cons, ih, hins, List.filter_cons_of_neg (by simpa using hPx)]

theorem sortByLt_filter {α : Type} (lt : α → α → Bool) (P : α → Bool)
    (hclass : ∀ a b, P a = true → P b = true → lt a b = false)
    (l : List α) :
    (sortByLt lt l).filter P = l.filter P := by
  unfold sortByLt
  rw [List.filter_reverse, foldl_insRev_filter lt P hclass l []]
  simp


/-! ### Characterizing the media-type comparator -/

theorem then_eq_lt (x y : Ordering) :
    x.then y = .lt ↔ x = .lt ∨ (x = .eq ∧ y = .lt) := by
  cases x <;> simp [Ordering.then]

theorem cmpQ_eq_lt (a b : ℚ) : cmpQ a b = .lt ↔ a < b := by
  unfold cmpQ
  split_ifs with h₁ h₂
  · simp [h₁]
  · simpa using h₁
  · simpa using h₁

theorem cmpQ_eq_eq (a b : ℚ) : cmpQ a b = .eq ↔ a = b := by
  unfold cmpQ
  split_ifs with h₁ h₂
  · simpa using ne_of_lt h₁
  · simpa using (ne_of_lt h₂).symm
  · simpa using le_antisymm (not_lt.mp h₂) (not_lt.mp h₁)

theorem cmpNat_eq_lt (a b : Nat) : cmpNat a b = .lt ↔ a < b := by
  unfold cmpNat
  split_ifs with h₁ h₂ <;> simp <;> omega

theorem cmpNat_eq_eq (a b : Nat) : cmpNat a b = .eq ↔ a = b := by
  unfold cmpNat
  split_ifs with h₁ h₂ <;> simp <;> omega

theorem mediaLt_iff_specLtAmended (a b : QMediaType) :
    mediaLt a b = true ↔ specLtAmended a b := by
  obtain ⟨ma, wa⟩ := a
  obtain ⟨mb, wb⟩ := b
  rcases wa with _ | aw <;> rcases wb with _ | bw
  all_goals simp [mediaLt, mediaCompare, specLtAmended, mediaRank, rankLt,
    then_eq_lt, cmpQ_eq_lt, cmpQ_eq_eq, cmpNat_eq_lt, cmpNat_eq_eq]

theorem rankLt_trans {a b c : ℚ × Nat × Nat} :
    rankLt a b → rankLt b c → rankLt a c := by
  unfold rankLt
  rintro (h₁ | ⟨he₁, h₁⟩) (h₂ | ⟨he₂, h₂⟩)
  · exact Or.inl (h₁.trans h₂)
  · exact Or.inl (he₂ ▸ h₁)
  · exact Or.inl (he₁ ▸ h₂)
  · refine Or.inr ⟨he₁.trans he₂, ?_⟩
    rcases h₁ with h₁ | ⟨hf₁, h₁⟩ <;> rcases h₂ with h₂ | ⟨hf₂, h₂⟩
    · exact Or.inl (h₁.trans h₂)
    · exact Or.inl (hf₂ ▸ h₁)
    · exact Or.inl (hf₁ ▸ h₂)
    · exact Or.inr ⟨hf₁.trans hf₂, h₁.trans h₂⟩

theorem rankLt_trichotomy (a b : ℚ × Nat × Nat) :
    rankLt a b ∨ a = b ∨ rankLt b a := by
  obtain ⟨a₁, a₂, a₃⟩ := a
  obtain ⟨b₁, b₂, b₃⟩ := b
  unfold rankLt
  rcases lt_trichotomy a₁ b₁ with h₁ | h₁ | h₁
  · exact Or.inl (Or.inl h₁)
  · rcases lt_trichotomy a₂ b₂ with h₂ | h₂ | h₂
    · exact Or.inl (Or.inr ⟨h₁, Or.inl h₂⟩)
    · rcases lt_trichotomy a₃ b₃ with h₃ | h₃ | h₃
      · exact Or.inl (Or.inr ⟨h₁, Or.inr ⟨h₂, h₃⟩⟩)
      · exact Or.inr (Or.inl (by simp [h₁, h₂, h₃]))
      · exact Or.inr (Or.inr (Or.inr ⟨h₁.symm, Or.inr ⟨h₂.symm, h₃⟩⟩))
    · exact Or.inr (Or.inr (Or.inr ⟨h₁.symm, Or.inl h₂⟩))
  · exact Or.inr (Or.inr (Or.inl h₁))

theorem rankLt_asymm {a b : ℚ × Nat × Nat} (h : rankLt a b) : ¬ rankLt b a := by
  intro h'
  have hac := rankLt_trans h h'
  unfold rankLt at hac
  rcases hac with h₀ | ⟨_, h₀ | ⟨_, h₀⟩⟩ <;> exact absurd h₀ (by simp)

theorem mediaLt_asymm (a b : QMediaType) (h : mediaLt a b = true) :
    mediaLt b a = false := by
  rw [mediaLt_iff_specLtAmended] at h
  rw [Bool.eq_false_iff]
  intro h'
  rw [mediaLt_iff_specLtAmended] at h'
  unfold specLtAmended at h h'
  rcases ha : a.weight with _ | aw <;> rcases hb : b.weight with _ | bw <;>
    rw [ha, hb] at h h' <;> simp_all
  exact rankLt_asymm h h'

theorem mediaLt_shift (x p q : QMediaType) (h : mediaLt x q = true) :
    mediaLt x p = true ∨ mediaLt p q = true := by
  rw [mediaLt_iff_specLtAmended] at h
  rw [mediaLt_iff_specLtAmended, mediaLt_iff_specLtAmended]
  unfold specLtAmended at h ⊢
  rcases hx : x.weight with _ | xw <;> rcases hq : q.weight with _ | qw <;>
    rcases hp : p.weight with _ | pw <;> rw [hx, hq] at h <;> simp_all
  rcases rankLt_trichotomy (mediaRank q qw) (mediaRank p pw) with h₁ | h₁ | h₁
  · exact Or.inr h₁
  · exact Or.inl (h₁ ▸ h)
  · exact Or.inl (rankLt_trans h₁ h)

theorem mediaLt_none_right (a b : QMediaType) (hb : b.weight = none) :
    mediaLt a b = false := by
  unfold mediaLt mediaCompare
  rw [hb]
  simp [Ordering.then]

/-! ### Nearest-station search -/

theorem closest_point_foldl (p : ℚ × ℚ) :
    ∀ (points : List (ℚ × ℚ)) (b : ℚ × ℚ),
      ∃ c,
        points.foldl
          (fun best q =>
            match best with
            | none => some q
            | some bb => if distSq q p < distSq bb p then some q else best)
          (some b) = some c ∧
        (c = b ∨ c ∈ points) ∧ distSq c p ≤ distSq b p ∧
        ∀ q ∈ points, distSq c p ≤ distSq q p
  | [], b => ⟨b, rfl, Or.inl rfl, le_refl _, by simp⟩
  | q :: rest, b => by
    by_cases h : distSq q p < distSq b p
    · obtain ⟨c, hfold, hmem, hle, hall⟩ := closest_point_foldl p rest q
      refine ⟨c, by simpa [h] using hfold, ?_, hle.trans h.le, ?_⟩
      · rcases hmem with rfl | hmem
        · exact Or.inr (List.mem_cons_self _ _)
        · exact Or.inr (List.mem_cons_of_mem _ hmem)
      · intro r hr
        rcases List.mem_cons.mp hr with rfl | hr
        · exact hle
        · exact hall r hr
    · obtain ⟨c, hfold, hmem, hle, hall⟩ := closest_point_foldl p rest b
      refine ⟨c, by simpa [h] using hfold, ?_, hle, ?_⟩
      · rcases hmem with rfl | hmem
        · exact Or.inl rfl
        · exact Or.inr (List.mem_cons_of_mem _ hmem)
      · intro r hr
        rcases List.mem_cons.mp hr with rfl | hr
        · exact hle.trans (not_lt.mp h)
        · exact hall r hr

theorem closest_point_spec (points : List (ℚ × ℚ)) (p : ℚ × ℚ)
    (h : points ≠ []) :
    ∃ c, closest_point points p = some c ∧ c ∈ points ∧
      ∀ q ∈ points, distSq c p ≤ distSq q p := by
  match points with
  | [] => exact absurd rfl h
  | q :: rest =>
    obtain ⟨c, hfold, hmem, hle, hall⟩ := closest_point_foldl p rest q
    refine ⟨c, ?_, ?_, ?_⟩
    · simpa [closest_point] using hfold
    · rcases hmem with rfl | hmem
      · exact List.mem_cons_self _ _
      · exact List.mem_cons_of_mem _ hmem
    · intro r hr
      rcases List.mem_cons.mp hr with rfl | hr
      · exact hle
      · exact hall r hr

theorem coordinateEq_refl (a : Coordinate) : coordinateEq a a = true := by
  simp [coordinateEq]

/-! ### Encoder registration -/

theorem encodeStep_lazyOrder_mem (acc : EncoderAcc) (w : Weather) (fam : LazyFamily) :
    fam ∈ (encodeStep acc w).lazyOrder ↔
      fam ∈ acc.lazyOrder ∨ famTrigger fam w = true := by
  unfold encodeStep
  rcases hh : w.relative_humidity with _ | hv <;> rcases hd : w.distance with _ | dv <;>
    cases fam <;>
    simp [famTrigger, hh, hd, List.elem_iff] <;>
    by_cases h1 : LazyFamily.humidity ∈ acc.lazyOrder <;>
    by_cases h2 : LazyFamily.distance ∈ acc.lazyOrder <;>
    simp_all [List.elem_iff]

theorem foldl_encodeStep_lazyOrder_mem :
    ∀ (ws : List Weather) (acc : EncoderAcc) (fam : LazyFamily),
      fam ∈ (ws.foldl encodeStep acc).lazyOrder ↔
        fam ∈ acc.lazyOrder ∨ ∃ w ∈ ws, famTrigger fam w = true
  | [], acc, fam => by simp
  | w :: ws, acc, fam => by
    rw [List.foldl_cons, foldl_encodeStep_lazyOrder_mem ws _ fam,
      encodeStep_lazyOrder_mem]
    simp only [List.mem_cons]
    constructor
    · rintro ((h | h) | ⟨u, hu, ht⟩)
      · exact Or.inl h
      · exact Or.inr ⟨w, Or.inl rfl, h⟩
      · exact Or.inr ⟨u, Or.inr hu, ht⟩
    · rintro (h | ⟨u, rfl | hu, ht⟩)
      · exact Or.inl (Or.inl h)
      · exact Or.inl (Or.inr ht)
      · exact Or.inr ⟨u, hu, ht⟩

/-! ### Cost parsing -/

theorem get_cost_ge_four (hash : String) (c : Nat) (h : get_cost hash = some c) :
    4 ≤ c := by
  unfold get_cost at h
  rcases hp : (splitOnChar '$' hash).get? 2 with _ | part <;> rw [hp] at h
  · exact absurd h (by simp)
  · have h' : (parseU32 part).filter (fun v => 4 ≤ v) = some c := h
    rcases hq : parseU32 part with _ | n <;> rw [hq] at h'
    · exact absurd h' (by simp [Option.filter])
    · unfold Option.filter at h'
      by_cases h4 : 4 ≤ n
      · simp [h4] at h'
        omega
      · simp [h4] at h'

theorem foldl_optMax_bound :
    ∀ (l : List (Option Nat)) (acc : Option Nat),
      (∀ a, acc = some a → 4 ≤ a) →
      (∀ o ∈ l, ∀ a, o = some a → 4 ≤ a) →
      ∀ c, l.foldl optMax acc = some c → 4 ≤ c
  | [], acc, hacc, _, c, hc => hacc c hc
  | o :: l, acc, hacc, hl, c, hc => by
    refine foldl_optMax_bound l (optMax acc o) ?_
      (fun o' ho' => hl o' (List.mem_cons_of_mem _ ho')) c hc
    intro a ha
    rcases acc with _ | av <;> rcases o with _ | ov
    · simp [optMax] at ha
    · simp [optMax] at ha
      have hov := hl (some ov) (by simp) ov rfl
      omega
    · simp [optMax] at ha
      have hav := hacc av rfl
      omega
    · simp [optMax] at ha
      have hav := hacc av rfl
      omega

theorem get_max_costs_ge_four (store : CredentialsStore) (c : Nat)
    (h : get_max_costs_from_credentials_store store = some c) : 4 ≤ c := by
  unfold get_max_costs_from_credentials_store at h
  refine foldl_optMax_bound _ none (by simp) ?_ c h
  intro o ho a ha
  rw [ha] at ho
  obtain ⟨p, _, hp⟩ := List.mem_map.mp ho
  exact get_cost_ge_four p.2 a hp

theorem get_cost_bcryptHash (c : Nat) (h4 : 4 ≤ c) (h31 : c ≤ 31) :
    get_cost ("$2b$" ++ costPad2 c ++ "$" ++ "modelsalt." ++ "fakepassword") = some c := by
  interval_cases c <;> decide

/-! ### Request-cache plumbing -/

theorem breakerCall_ok_of_permits {α : Type} (b : BreakerState) (now : Nat)
    (a : α) (hperm : breakerPermits b now) :
    breakerCall b now (Except.ok a) = (.ok a, .closed 0, 1) := by
  cases b with
  | closed f => rfl
  | opened untilTime k =>
    simp only [breakerPermits] at hperm
    simp [breakerCall, Nat.not_lt.mpr hperm]

theorem request_url_with_circuit_breaker_eq_error {R : Type}
    (breaker : BreakerState) (host source : String) (key : ReqKey)
    (toStr : Nat × String → Except String String)
    (deserialize : String → Except String R)
    (net : NetOutcome) (st : HttpState) (e : String) (b' : BreakerState) (cnt : Nat)
    (hbc : breakerCall breaker st.now (request_url net source) = (.error e, b', cnt)) :
    request_url_with_circuit_breaker breaker host source key toStr deserialize net st =
      (.error e, { st with registry := alistInsert st.registry host b' }, cnt) := by
  unfold request_url_with_circuit_breaker
  rw [hbc]

theorem request_url_with_circuit_breaker_eq_ok {R : Type}
    (breaker : BreakerState) (host source : String) (key : ReqKey)
    (toStr : Nat × String → Except String String)
    (deserialize : String → Except String R)
    (net : NetOutcome) (st : HttpState) (resp : Nat × String) (b' : BreakerState)
    (cnt : Nat) (body : String)
    (hbc : breakerCall breaker st.now (request_url net source) = (.ok resp, b', cnt))
    (hstr : toStr resp = .ok body) :
    request_url_with_circuit_breaker breaker host source key toStr deserialize net st =
      (deserialize body,
        { st with
            registry := alistInsert st.registry host b'
            cache := alistInsert st.cache key body },
        cnt) := by
  unfold request_url_with_circuit_breaker
  rw [hbc]
  simp only [hstr]

theorem request_cached_miss_eq {R : Type}
    (source method : String) (url : Url) (host : String)
    (toStr : Nat × String → Except String String)
    (deserialize : String → Except String R)
    (net : NetOutcome) (st : HttpState)
    (hmiss : alistGet st.cache (method, url) = none)
    (hhost : url.host = some host) :
    request_cached source method url toStr deserialize net st =
      request_url_with_circuit_breaker
        ((alistGet st.registry host).getD freshBreaker) host source (method, url)
        toStr deserialize net st := by
  unfold request_cached request_cached_fetch
  rw [hmiss, hhost]

/-! ## Claim theorems -/

/-- Claim C2: for every key, a cache hit is served by deserializing the
cached entry without invoking the upstream loader and leaves the state
untouched; a successful upstream fetch stores the response body in the
cache under the key; a failed fetch (upstream error or circuit-breaker
rejection) returns an error and leaves the cache unchanged. -/
theorem c2_cache_hit_store_and_failure_semantics {R : Type}
    (source method : String) (url : Url)
    (toStr : Nat × String → Except String String)
    (deserialize : String → Except String R)
    (net : NetOutcome) (st : HttpState) :
    (∀ v, alistGet st.cache (method, url) = some v →
      request_cached source method url toStr deserialize net st =
        (deserialize v, st, 0)) ∧
    (∀ host status body body',
      alistGet st.cache (method, url) = none →
      url.host = some host →
      breakerPermits ((alistGet st.registry host).getD freshBreaker) st.now →
      request_url net source = .ok (status, body) →
      toStr (status, body) = .ok body' →
      (request_cached source method url toStr deserialize net st).1 =
          deserialize body' ∧
        alistGet (request_cached source method url toStr deserialize net st).2.1.cache
          (method, url) = some body') ∧
    (∀ host,
      alistGet st.cache (method, url) = none →
      url.host = some host →
      isErr (breakerCall ((alistGet st.registry host).getD freshBreaker) st.now
          (request_url net source)).1 = true →
      isErr (request_cached source method url toStr deserialize net st).1 = true ∧
        (request_cached source method url toStr deserialize net st).2.1.cache =
          st.cache) := by
  refine ⟨?_, ?_, ?_⟩
  · intro v hv
    unfold request_cached
    rw [hv]
  · intro host status body body' hmiss hhost hperm hreq hstr
    have hbc : breakerCall ((alistGet st.registry host).getD freshBreaker) st.now
        (request_url net source) = (.ok (status, body), .closed 0, 1) := by
      rw [hreq]
      exact breakerCall_ok_of_permits _ st.now (status, body) hperm
    have hfetch := request_url_with_circuit_breaker_eq_ok
      ((alistGet st.registry host).getD freshBreaker) host source (method, url)
      toStr deserialize net st (status, body) (.closed 0) 1 body' hbc hstr
    rw [request_cached_miss_eq source method url host toStr deserialize net st
      hmiss hhost, hfetch]
    exact ⟨rfl, alistGet_alistInsert_self _ _ _⟩
  · intro host hmiss hhost herr
    rw [request_cached_miss_eq source method url host toStr deserialize net st
      hmiss hhost]
    rcases hbc : breakerCall ((alistGet st.registry host).getD freshBreaker) st.now
        (request_url net source) with ⟨r, b', cnt⟩
    cases r with
    | error e =>
      rw [request_url_with_circuit_breaker_eq_error _ host source (method, url)
        toStr deserialize net st e b' cnt hbc]
      exact ⟨rfl, rfl⟩
    | ok resp =>
      rw [hbc] at herr
      exact absurd herr (by simp [isErr])

/-- Claim C2 witness. -/
theorem c2_cache_hit_store_and_failure_semantics_witness :
    (request_cached "s" "GET" ⟨"https://h.example/x", some "h.example"⟩
        (fun p => .ok p.2) (fun s => Except.ok s) (.resp 200 "body")
        ⟨[(("GET", ⟨"https://h.example/x", some "h.example"⟩), "cached")], [], 0⟩ =
      (.ok "cached",
        ⟨[(("GET", ⟨"https://h.example/x", some "h.example"⟩), "cached")], [], 0⟩, 0)) ∧
    ((request_cached "s" "GET" ⟨"https://h.example/x", some "h.example"⟩
        (fun p => .ok p.2) (fun s => Except.ok s) (.resp 200 "body")
        ⟨[], [], 0⟩).1 = .ok "body") ∧
    (isErr (request_cached "s" "GET" ⟨"https://h.example/x", some "h.example"⟩
        (fun p => .ok p.2) (fun s => Except.ok s) (.resp 500 "oops")
        ⟨[], [], 0⟩).1 = true ∧
      (request_cached "s" "GET" ⟨"https://h.example/x", some "h.example"⟩
        (fun p => .ok p.2) (fun s => Except.ok s) (.resp 500 "oops")
        ⟨[], [], 0⟩).2.1.cache = []) := by
  obtain ⟨ha, hb, hc⟩ := c2_cache_hit_store_and_failure_semantics "s" "GET"
    ⟨"https://h.example/x", some "h.example"⟩ (fun p => .ok p.2)
    (fun s => Except.ok s) (.resp 200 "body")
    ⟨[(("GET", ⟨"https://h.example/x", some "h.example"⟩), "cached")], [], 0⟩
  obtain ⟨ha2, hb2, hc2⟩ := c2_cache_hit_store_and_failure_semantics "s" "GET"
    ⟨"https://h.example/x", some "h.example"⟩ (fun p => .ok p.2)
    (fun s => Except.ok s) (.resp 200 "body") ⟨[], [], 0⟩
  obtain ⟨ha3, hb3, hc3⟩ := c2_cache_hit_store_and_failure_semantics "s" "GET"
    ⟨"https://h.example/x", some "h.example"⟩ (fun p => .ok p.2)
    (fun s => Except.ok s) (.resp 500 "oops") ⟨[], [], 0⟩
  refine ⟨ha "cached" (by decide), ?_, ?_⟩
  · exact (hb2 "h.example" 200 "body" "body" (by decide) rfl trivial rfl rfl).1
  · exact hc3 "h.example" (by decide) rfl (by decide)

theorem request_cached_fetch_eq {R : Type}
    (source method : String) (url : Url) (host : String)
    (toStr : Nat × String → Except String String)
    (deserialize : String → Except String R)
    (net : NetOutcome) (st : HttpState)
    (hhost : url.host = some host) :
    request_cached_fetch source method url toStr deserialize net st =
      request_url_with_circuit_breaker
        ((alistGet st.registry host).getD freshBreaker) host source (method, url)
        toStr deserialize net st := by
  unfold request_cached_fetch
  rw [hhost]

theorem request_url_with_circuit_breaker_ok_parts {R : Type}
    (breaker : BreakerState) (host source : String) (key : ReqKey)
    (toStr : Nat × String → Except String String)
    (deserialize : String → Except String R)
    (net : NetOutcome) (st : HttpState) (resp : Nat × String) (b' : BreakerState)
    (cnt : Nat)
    (hbc : breakerCall breaker st.now (request_url net source) = (.ok resp, b', cnt)) :
    (request_url_with_circuit_breaker breaker host source key toStr deserialize
        net st).2.2 = cnt ∧
      (request_url_with_circuit_breaker breaker host source key toStr deserialize
        net st).2.1.registry = alistInsert st.registry host b' ∧
      (request_url_with_circuit_breaker breaker host source key toStr deserialize
        net st).2.1.now = st.now := by
  unfold request_url_with_circuit_breaker
  rw [hbc]
  rcases hts : toStr resp with e | body <;> simp [hts]

/-- Claim C1 counterexample: with an empty cache and a reachable
upstream, the schedule in which two concurrent callers for the same
key both perform their cache lookup before either fetch completes
makes the upstream loader run twice — not exactly once — even though
both callers succeed within one TTL window. -/
theorem c1_single_flight_counterexample :
    (request_cached_two_concurrent_misses "s" "GET"
        ⟨"https://h.example/x", some "h.example"⟩
        (fun p => Except.ok p.2) (fun s => Except.ok s) (.resp 200 "body")
        ⟨[], [], 0⟩).2.2 = 2 ∧
      (request_cached_two_concurrent_misses "s" "GET"
        ⟨"https://h.example/x", some "h.example"⟩
        (fun p => Except.ok p.2) (fun s => Except.ok s) (.resp 200 "body")
        ⟨[], [], 0⟩).1 = (Except.ok "body", Except.ok "body") :=
  ⟨rfl, rfl⟩

/-- Claim C1 (amended): `request_cached` implements no single-flight
coordination.  Concurrent callers for the same key that both miss the
cache each invoke the upstream loader — under the
both-lookups-before-either-fetch schedule the loader runs twice.  Only
a caller that finds the entry stored by an earlier completed fetch is
served from the cache: after a successful fetch stores the body, a
subsequent `request_cached` for that key deserializes the stored body
and invokes the loader zero times. -/
theorem c1_no_single_flight (R : Type)
    (source method : String) (url : Url)
    (toStr : Nat × String → Except String String)
    (deserialize : String → Except String R)
    (net : NetOutcome) (st : HttpState) :
    (∀ host status body,
      alistGet st.cache (method, url) = none →
      url.host = some host →
      breakerPermits ((alistGet st.registry host).getD freshBreaker) st.now →
      request_url net source = .ok (status, body) →
      (request_cached_two_concurrent_misses source method url toStr deserialize
        net st).2.2 = 2) ∧
    (∀ host status body body',
      alistGet st.cache (method, url) = none →
      url.host = some host →
      breakerPermits ((alistGet st.registry host).getD freshBreaker) st.now →
      request_url net source = .ok (status, body) →
      toStr (status, body) = .ok body' →
      request_cached source method url toStr deserialize net
          (request_cached source method url toStr deserialize net st).2.1 =
        (deserialize body',
          (request_cached source method url toStr deserialize net st).2.1, 0)) := by
  constructor
  · intro host status body hmiss hhost hperm hreq
    have hbc : breakerCall ((alistGet st.registry host).getD freshBreaker) st.now
        (request_url net source) = (.ok (status, body), .closed 0, 1) := by
      rw [hreq]
      exact breakerCall_ok_of_permits _ st.now (status, body) hperm
    have hfe := request_cached_fetch_eq source method url host toStr deserialize net st hhost
    have hparts := request_url_with_circuit_breaker_ok_parts
      ((alistGet st.registry host).getD freshBreaker) host source (method, url)
      toStr deserialize net st (status, body) (.closed 0) 1 hbc
    rw [← hfe] at hparts
    obtain ⟨hcnt₁, hreg₁, hnow₁⟩ := hparts
    rcases hA : request_cached_fetch source method url toStr deserialize net st
      with ⟨resA, st₁, cntA⟩
    rw [hA] at hcnt₁ hreg₁ hnow₁
    simp only at hcnt₁ hreg₁ hnow₁
    have hb₁ : (alistGet st₁.registry host).getD freshBreaker = .closed 0 := by
      rw [hreg₁, alistGet_alistInsert_self]
      rfl
    have hbc₂ : breakerCall ((alistGet st₁.registry host).getD freshBreaker) st₁.now
        (request_url net source) = (.ok (status, body), .closed 0, 1) := by
      rw [hb₁, hreq]
      rfl
    have hfe₂ := request_cached_fetch_eq source method url host toStr deserialize net st₁ hhost
    have hparts₂ := request_url_with_circuit_breaker_ok_parts
      ((alistGet st₁.registry host).getD freshBreaker) host source (method, url)
      toStr deserialize net st₁ (status, body) (.closed 0) 1 hbc₂
    rw [← hfe₂] at hparts₂
    obtain ⟨hcnt₂, _, _⟩ := hparts₂
    unfold request_cached_two_concurrent_misses
    rw [hmiss]
    simp only [hA]
    rcases hB : request_cached_fetch source method url toStr deserialize net st₁
      with ⟨resB, st₂, cntB⟩
    rw [hB] at hcnt₂
    simp only at hcnt₂
    simp [hcnt₁, hcnt₂]
  · intro host status body body' hmiss hhost hperm hreq hstr
    have hbc : breakerCall ((alistGet st.registry host).getD freshBreaker) st.now
        (request_url net source) = (.ok (status, body), .closed 0, 1) := by
      rw [hreq]
      exact breakerCall_ok_of_permits _ st.now (status, body) hperm
    have hfetch := request_url_with_circuit_breaker_eq_ok
      ((alistGet st.registry host).getD freshBreaker) host source (method, url)
      toStr deserialize net st (status, body) (.closed 0) 1 body' hbc hstr
    rw [request_cached_miss_eq source method url host toStr deserialize net st
      hmiss hhost, hfetch]
    unfold request_cached
    rw [alistGet_alistInsert_self]

/-- Claim C1 (amended) witness. -/
theorem c1_no_single_flight_witness :
    (request_cached_two_concurrent_misses "s" "GET"
        ⟨"https://h.example/x", some "h.example"⟩
        (fun p => Except.ok p.2) (fun s => Except.ok ("v:" ++ s)) (.resp 200 "b")
        ⟨[], [], 5⟩).2.2 = 2 ∧
      request_cached "s" "GET" ⟨"https://h.example/x", some "h.example"⟩
          (fun p => Except.ok p.2) (fun s => Except.ok ("v:" ++ s)) (.resp 200 "b")
          (request_cached "s" "GET" ⟨"https://h.example/x", some "h.example"⟩
            (fun p => Except.ok p.2) (fun s => Except.ok ("v:" ++ s)) (.resp 200 "b")
            ⟨[], [], 5⟩).2.1 =
        (Except.ok "v:b",
          (request_cached "s" "GET" ⟨"https://h.example/x", some "h.example"⟩
            (fun p => Except.ok p.2) (fun s => Except.ok ("v:" ++ s)) (.resp 200 "b")
            ⟨[], [], 5⟩).2.1, 0) := by
  obtain ⟨h1, h2⟩ := c1_no_single_flight String "s" "GET"
    ⟨"https://h.example/x", some "h.example"⟩ (fun p => Except.ok p.2)
    (fun s => Except.ok ("v:" ++ s)) (.resp 200 "b") ⟨[], [], 5⟩
  exact ⟨h1 "h.example" 200 "b" (by decide) rfl trivial rfl,
    h2 "h.example" 200 "b" "b" (by decide) rfl trivial rfl rfl⟩

/-- Claim C3: the per-host circuit breaker is lazily created with the
consecutive-failures policy (threshold 3) over an exponential backoff
starting at 30 s and capped at 300 s; while open it rejects the call
without any upstream request; network errors and non-2xx statuses
count as breaker failures (the third consecutive one opens it, a
failed probe re-opens it with the next longer window), while a
deserialization failure of a fetched body records a breaker success
(failure count reset to zero) and so never counts. -/
theorem c3_circuit_breaker_policy :
    (CONSECUTIVE_FAILURE_COUNT = 3 ∧ EXPONENTIAL_BACKOFF_START_SECS = 30 ∧
      EXPONENTIAL_BACKOFF_MAX_SECS = 300) ∧
    (backoffSecs 0 = 30 ∧ (∀ k, backoffSecs k ≤ backoffSecs (k + 1)) ∧
      (∀ k, 30 ≤ backoffSecs k ∧ backoffSecs k ≤ 300) ∧ backoffSecs 4 = 300) ∧
    (∀ (R : Type) (source method : String) (url : Url) (host : String)
      (toStr : Nat × String → Except String String)
      (deserialize : String → Except String R) (net : NetOutcome)
      (st : HttpState),
      alistGet st.cache (method, url) = none →
      url.host = some host →
      alistGet st.registry host = none →
      request_cached source method url toStr deserialize net st =
        request_url_with_circuit_breaker freshBreaker host source (method, url)
          toStr deserialize net st) ∧
    (∀ (R : Type) (source method : String) (url : Url) (host : String)
      (toStr : Nat × String → Except String String)
      (deserialize : String → Except String R) (net : NetOutcome)
      (st : HttpState) (u k : Nat),
      alistGet st.cache (method, url) = none →
      url.host = some host →
      alistGet st.registry host = some (.opened u k) →
      st.now < u →
      (request_cached source method url toStr deserialize net st).1 =
          .error "Circuit breaker is open and prevented request" ∧
        (request_cached source method url toStr deserialize net st).2.2 = 0) ∧
    (∀ (α : Type) (f now : Nat) (e : String), f + 1 < 3 →
      breakerCall (α := α) (.closed f) now (.error e) =
        (.error e, .closed (f + 1), 1)) ∧
    (∀ (α : Type) (now : Nat) (e : String),
      breakerCall (α := α) (.closed 2) now (.error e) =
        (.error e, .opened (now + 30) 0, 1)) ∧
    (∀ (α : Type) (u k now : Nat) (e : String), u ≤ now →
      breakerCall (α := α) (.opened u k) now (.error e) =
        (.error e, .opened (now + backoffSecs (k + 1)) (k + 1), 1)) ∧
    (∀ source, isErr (request_url .sendErr source) = true) ∧
    (∀ source status body, status < 200 ∨ 300 ≤ status →
      isErr (request_url (.resp status body) source) = true) ∧
    (∀ (R : Type) (source method : String) (url : Url) (host : String)
      (toStr : Nat × String → Except String String)
      (deserialize : String → Except String R) (net : NetOutcome)
      (st : HttpState) (status : Nat) (body body' e : String),
      alistGet st.cache (method, url) = none →
      url.host = some host →
      breakerPermits ((alistGet st.registry host).getD freshBreaker) st.now →
      request_url net source = .ok (status, body) →
      toStr (status, body) = .ok body' →
      deserialize body' = .error e →
      (request_cached source method url toStr deserialize net st).1 = .error e ∧
        alistGet (request_cached source method url toStr deserialize net
          st).2.1.registry host = some (.closed 0)) := by
  refine ⟨⟨rfl, rfl, rfl⟩, ⟨rfl, ?_, ?_, rfl⟩, ?_, ?_, ?_, ?_, ?_, ?_, ?_, ?_⟩
  · intro k
    have h : EXPONENTIAL_BACKOFF_START_SECS * 2 ^ k ≤
        EXPONENTIAL_BACKOFF_START_SECS * 2 ^ (k + 1) :=
      Nat.mul_le_mul_left _ (Nat.pow_le_pow_right (by omega) (by omega))
    exact min_le_min h (le_refl _)
  · intro k
    constructor
    · refine le_min ?_ (by simp [EXPONENTIAL_BACKOFF_MAX_SECS])
      have h1 : (1 : Nat) ≤ 2 ^ k := Nat.one_le_two_pow
      calc (30 : Nat) = 30 * 1 := by omega
        _ ≤ EXPONENTIAL_BACKOFF_START_SECS * 2 ^ k :=
          Nat.mul_le_mul (by simp [EXPONENTIAL_BACKOFF_START_SECS]) h1
    · exact min_le_right _ _
  · intro R source method url host toStr deserialize net st hmiss hhost hreg
    rw [request_cached_miss_eq source method url host toStr deserialize net st
      hmiss hhost, hreg]
    rfl
  · intro R source method url host toStr deserialize net st u k hmiss hhost hreg hlt
    rw [request_cached_miss_eq source method url host toStr deserialize net st
      hmiss hhost, hreg]
    have hb : (some (BreakerState.opened u k)).getD freshBreaker = .opened u k := rfl
    rw [hb]
    have hbc : breakerCall (α := Nat × String) (.opened u k) st.now
        (request_url net source) =
        (.error "Circuit breaker is open and prevented request", .opened u k, 0) := by
      simp [breakerCall, hlt]
    rw [request_url_with_circuit_breaker_eq_error _ host source (method, url)
      toStr deserialize net st _ _ _ hbc]
    exact ⟨rfl, rfl⟩
  · intro α f now e hf
    unfold breakerCall
    have h3 : ¬ CONSECUTIVE_FAILURE_COUNT ≤ f + 1 := by
      simp only [CONSECUTIVE_FAILURE_COUNT]
      omega
    simp [h3]
  · intro α now e
    rfl
  · intro α u k now e hu
    simp [breakerCall, Nat.not_lt.mpr hu]
  · intro source
    rfl
  · intro source status body hs
    have h : ¬ (200 ≤ status ∧ status ≤ 299) := by omega
    simp [request_url, h, isErr]
  · intro R source method url host toStr deserialize net st status body body' e
      hmiss hhost hperm hreq hstr hdes
    have hbc : breakerCall ((alistGet st.registry host).getD freshBreaker) st.now
        (request_url net source) = (.ok (status, body), .closed 0, 1) := by
      rw [hreq]
      exact breakerCall_ok_of_permits _ st.now (status, body) hperm
    have hfetch := request_url_with_circuit_breaker_eq_ok
      ((alistGet st.registry host).getD freshBreaker) host source (method, url)
      toStr deserialize net st (status, body) (.closed 0) 1 body' hbc hstr
    rw [request_cached_miss_eq source method url host toStr deserialize net st
      hmiss hhost, hfetch]
    exact ⟨hdes, alistGet_alistInsert_self _ _ _⟩

/-- Claim C3 witness. -/
theorem c3_circuit_breaker_policy_witness :
    (request_cached "s" "GET" ⟨"https://h.example/x", some "h.example"⟩
        (fun p => Except.ok p.2) (fun s => Except.ok s) (.resp 200 "b")
        ⟨[], [], 0⟩ =
      request_url_with_circuit_breaker freshBreaker "h.example" "s"
        ("GET", ⟨"https://h.example/x", some "h.example"⟩)
        (fun p => Except.ok p.2) (fun s => Except.ok s) (.resp 200 "b")
        ⟨[], [], 0⟩) ∧
    ((request_cached "s" "GET" ⟨"https://h.example/x", some "h.example"⟩
        (fun p => Except.ok p.2) (fun s => Except.ok s) (.resp 200 "b")
        ⟨[], [("h.example", .opened 30 0)], 10⟩).1 =
      .error "Circuit breaker is open and prevented request") ∧
    (breakerCall (α := Nat) (.closed 0) 0 (.error "e") =
      (.error "e", .closed 1, 1)) ∧
    (breakerCall (α := Nat) (.closed 2) 7 (.error "e") =
      (.error "e", .opened 37 0, 1)) ∧
    (breakerCall (α := Nat) (.opened 30 0) 30 (.error "e") =
      (.error "e", .opened (30 + backoffSecs 1) 1, 1)) ∧
    (isErr (request_url (.resp 404 "nope") "s") = true) ∧
    ((request_cached "s" "GET" ⟨"https://h.example/x", some "h.example"⟩
        (fun p => Except.ok p.2) (fun _ => (Except.error "parse" : Except String Nat))
        (.resp 200 "b") ⟨[], [], 0⟩).1 = .error "parse" ∧
      alistGet (request_cached "s" "GET" ⟨"https://h.example/x", some "h.example"⟩
        (fun p => Except.ok p.2) (fun _ => (Except.error "parse" : Except String Nat))
        (.resp 200 "b") ⟨[], [], 0⟩).2.1.registry "h.example" =
        some (.closed 0)) := by
  obtain ⟨-, -, hlazy, hopen, hcl, hthr, hprobe, -, hstatus, hdes⟩ :=
    c3_circuit_breaker_policy
  refine ⟨?_, ?_, ?_, ?_, ?_, ?_, ?_⟩
  · exact hlazy String "s" "GET" ⟨"https://h.example/x", some "h.example"⟩
      "h.example" (fun p => Except.ok p.2) (fun s => Except.ok s) (.resp 200 "b")
      ⟨[], [], 0⟩ (by decide) rfl (by decide)
  · exact (hopen String "s" "GET" ⟨"https://h.example/x", some "h.example"⟩
      "h.example" (fun p => Except.ok p.2) (fun s => Except.ok s) (.resp 200 "b")
      ⟨[], [("h.example", .opened 30 0)], 10⟩ 30 0 (by decide) rfl (by decide)
      (by decide)).1
  · exact hcl Nat 0 0 "e" (by decide)
  · exact hthr Nat 7 "e"
  · exact hprobe Nat 30 0 30 "e" (by decide)
  · exact hstatus "s" 404 "nope" (by decide)
  · exact hdes Nat "s" "GET" ⟨"https://h.example/x", some "h.example"⟩
      "h.example" (fun p => Except.ok p.2)
      (fun _ => (Except.error "parse" : Except String Nat)) (.resp 200 "b")
      ⟨[], [], 0⟩ 200 "b" "b" "parse" (by decide) rfl trivial rfl rfl rfl

theorem orInsertWithIf_absent {α β : Type} [DecidableEq α]
    (cache : List (α × β)) (key : α) (init : Unit → β) (replaceIf : β → Bool)
    (hc : alistGet cache key = none) :
    orInsertWithIf cache key init replaceIf =
      (init (), alistInsert cache key (init ()), true) := by
  unfold orInsertWithIf
  rw [hc]

theorem orInsertWithIf_replace {α β : Type} [DecidableEq α]
    (cache : List (α × β)) (key : α) (init : Unit → β) (replaceIf : β → Bool)
    (v : β) (hc : alistGet cache key = some v) (hr : replaceIf v = true) :
    orInsertWithIf cache key init replaceIf =
      (init (), alistInsert cache key (init ()), true) := by
  unfold orInsertWithIf
  rw [hc]
  simp [hr]

theorem orInsertWithIf_keep {α β : Type} [DecidableEq α]
    (cache : List (α × β)) (key : α) (init : Unit → β) (replaceIf : β → Bool)
    (v : β) (hc : alistGet cache key = some v) (hr : replaceIf v = false) :
    orInsertWithIf cache key init replaceIf = (v, cache, false) := by
  unfold orInsertWithIf
  rw [hc]
  simp [hr]

theorem authenticate_username_not_found
    (verify : String → String → Except String Bool)
    (store : CredentialsStore) (auth : BasicAuth) (dh : String)
    (cache : AuthCache)
    (hfind : store.find? (fun p => p.1 = auth.username) = none) :
    authenticate verify store auth dh cache =
      (.error .forbidden, cache, [(auth.password, dh)]) := by
  unfold authenticate
  rw [hfind]

theorem authenticate_username_found
    (verify : String → String → Except String Bool)
    (store : CredentialsStore) (auth : BasicAuth) (dh : String)
    (cache : AuthCache) (u h : String)
    (hfind : store.find? (fun p => p.1 = auth.username) = some (u, h)) :
    authenticate verify store auth dh cache =
      ((orInsertWithIf cache (auth.username, auth.password)
          (fun _ => verifyOutcome verify auth.password h) isErr).1,
        (orInsertWithIf cache (auth.username, auth.password)
          (fun _ => verifyOutcome verify auth.password h) isErr).2.1,
        if (orInsertWithIf cache (auth.username, auth.password)
            (fun _ => verifyOutcome verify auth.password h) isErr).2.2 then
          [(auth.password, h)]
        else []) := by
  unfold authenticate
  rw [hfind]

theorem maybe_authenticate_some_some
    (verify : String → String → Except String Bool)
    (store : CredentialsStore) (auth : BasicAuth) (dh : String)
    (cache : AuthCache) :
    maybe_authenticate verify (some (store, dh)) (some auth) cache =
      authenticate verify store auth dh cache := rfl

/-- Claim C4: `maybe_authenticate` implements exactly this case
analysis — no store configured yields `NotRequired` for any presented
credentials; a store with no credentials presented yields
`Unauthorized`; a store with credentials whose username is unknown
performs exactly one bcrypt verification, against the pre-computed
sentinel hash (whose cost the configuration step sets to the maximum
parsed cost of the stored hashes), and yields `Forbidden`; a known
username yields `Succeeded` exactly when the password verifies against
the stored hash and `Forbidden` when verification returns false or
errors. -/
theorem c4_maybe_authenticate_cases
    (verify : String → String → Except String Bool) (cache : AuthCache) :
    (∀ presented,
      maybe_authenticate verify none presented cache =
        (.ok .notRequired, cache, [])) ∧
    (∀ store dh,
      maybe_authenticate verify (some (store, dh)) none cache =
        (.error .unauthorized, cache, [])) ∧
    (∀ (store : CredentialsStore) dh (auth : BasicAuth),
      store.find? (fun p => p.1 = auth.username) = none →
      maybe_authenticate verify (some (store, dh)) (some auth) cache =
        (.error .forbidden, cache, [(auth.password, dh)])) ∧
    (∀ (store : CredentialsStore) dh (auth : BasicAuth) u h,
      store.find? (fun p => p.1 = auth.username) = some (u, h) →
      (∀ r, alistGet cache (auth.username, auth.password) = some r →
        isErr r = false → r = verifyOutcome verify auth.password h) →
      (maybe_authenticate verify (some (store, dh)) (some auth) cache).1 =
        verifyOutcome verify auth.password h) ∧
    (∀ store c, get_max_costs_from_credentials_store store = some c → c ≤ 31 →
      ∃ dh, configuredCredentials (some store) = some (store, dh) ∧
        get_cost dh = some c) := by
  refine ⟨fun _ => rfl, fun _ _ => rfl, ?_, ?_, ?_⟩
  · intro store dh auth hfind
    rw [maybe_authenticate_some_some,
      authenticate_username_not_found verify store auth dh cache hfind]
  · intro store dh auth u h hfind hcons
    rw [maybe_authenticate_some_some,
      authenticate_username_found verify store auth dh cache u h hfind]
    rcases hc : alistGet cache (auth.username, auth.password) with _ | r
    · rw [orInsertWithIf_absent _ _ _ _ hc]
    · by_cases he : isErr r = true
      · rw [orInsertWithIf_replace _ _ _ _ r hc he]
      · rw [Bool.not_eq_true] at he
        rw [orInsertWithIf_keep _ _ _ _ r hc he]
        simpa using hcons r hc he
  · intro store c hmax h31
    have h4 := get_max_costs_ge_four store c hmax
    refine ⟨"$2b$" ++ costPad2 c ++ "$" ++ "modelsalt." ++ "fakepassword", ?_,
      get_cost_bcryptHash c h4 h31⟩
    show (get_default_hash (get_max_costs_from_credentials_store store)).map
      (fun default_hash => (store, default_hash)) = _
    rw [hmax]
    unfold get_default_hash bcryptHash
    rw [if_pos ⟨h4, h31⟩]
    rfl

/-- Claim C4 witness. -/
theorem c4_maybe_authenticate_cases_witness :
    (maybe_authenticate (fun p _ => Except.ok (p = "secret")) none
        (some ⟨"joanna", "secret"⟩) [] = (.ok .notRequired, [], [])) ∧
    (maybe_authenticate (fun p _ => Except.ok (p = "secret"))
        (some ([("joanna", "H1")], "DH")) none [] =
      (.error .unauthorized, [], [])) ∧
    (maybe_authenticate (fun p _ => Except.ok (p = "secret"))
        (some ([("joanna", "H1")], "DH")) (some ⟨"bob", "x"⟩) [] =
      (.error .forbidden, [], [("x", "DH")])) ∧
    ((maybe_authenticate (fun p _ => Except.ok (p = "secret"))
        (some ([("joanna", "H1")], "DH")) (some ⟨"joanna", "secret"⟩) []).1 =
      .ok .succeeded) ∧
    (∃ dh, configuredCredentials (some [("a", "$2b$06$abc")]) =
        some ([("a", "$2b$06$abc")], dh) ∧ get_cost dh = some 6) := by
  obtain ⟨ha, hb, hc, hd, he⟩ :=
    c4_maybe_authenticate_cases (fun p _ => Except.ok (p = "secret")) []
  refine ⟨ha (some ⟨"joanna", "secret"⟩), hb [("joanna", "H1")] "DH",
    hc [("joanna", "H1")] "DH" ⟨"bob", "x"⟩ (by decide), ?_, ?_⟩
  · have hknown := hd [("joanna", "H1")] "DH" ⟨"joanna", "secret"⟩ "joanna" "H1"
      (by decide) (fun r hr _ => by simp [alistGet] at hr)
    rw [hknown]
    rfl
  · exact he [("a", "$2b$06$abc")] 6 (by decide) (by decide)

/-- Claim C5 counterexample: with a store containing `joanna`, a wrong
password verified once and cached as `Denied`, the very next identical
attempt is not served from the cache without re-running bcrypt —
`or_insert_with_if(.., Result::is_err)` re-runs the verification (the
second call's bcrypt-verification list is nonempty), so repeated bad
attempts are not cheap. -/
theorem c5_denied_memoization_counterexample :
    (maybe_authenticate (fun _ _ => Except.ok false)
        (some ([("joanna", "H1")], "DH")) (some ⟨"joanna", "bad"⟩) []).1 =
      .error .forbidden ∧
    (maybe_authenticate (fun _ _ => Except.ok false)
        (some ([("joanna", "H1")], "DH")) (some ⟨"joanna", "bad"⟩)
        (maybe_authenticate (fun _ _ => Except.ok false)
          (some ([("joanna", "H1")], "DH")) (some ⟨"joanna", "bad"⟩) []).2.1).2.2 =
      [("bad", "H1")] :=
  ⟨rfl, rfl⟩

/-- Claim C5 (amended): the process-wide cache memoizes `Granted`
outcomes — a repeated identical successful attempt is served from the
cache with zero bcrypt verifications — while `Denied` outcomes, though
stored, are re-evaluated on every attempt (`or_insert_with_if` is
passed `Result::is_err` as its replace condition), so a repeated bad
attempt for a known username re-runs bcrypt; with the store and
verification function fixed, a pair that was denied is denied again on
the repeat, never granted. -/
theorem c5_auth_cache_grants_memoized_denials_reverified
    (verify : String → String → Except String Bool)
    (store : CredentialsStore) (auth : BasicAuth) (dh : String)
    (cache : AuthCache) :
    (∀ g cache₁ calls,
      maybe_authenticate verify (some (store, dh)) (some auth) cache =
        (.ok g, cache₁, calls) →
      maybe_authenticate verify (some (store, dh)) (some auth) cache₁ =
        (.ok g, cache₁, [])) ∧
    (∀ d cache₁ calls,
      maybe_authenticate verify (some (store, dh)) (some auth) cache =
        (.error d, cache₁, calls) →
      (maybe_authenticate verify (some (store, dh)) (some auth) cache₁).1 =
          .error d ∧
        (store.find? (fun p => p.1 = auth.username) ≠ none →
          (maybe_authenticate verify (some (store, dh)) (some auth) cache₁).2.2 ≠
            [])) := by
  rcases hfind : store.find? (fun p => p.1 = auth.username) with _ | p
  · refine ⟨?_, ?_⟩
    · intro g cache₁ calls hrun
      rw [maybe_authenticate_some_some,
        authenticate_username_not_found verify store auth dh cache hfind] at hrun
      exact absurd (congrArg (fun t => t.1) hrun) (by simp)
    · intro d cache₁ calls hrun
      rw [maybe_authenticate_some_some,
        authenticate_username_not_found verify store auth dh cache hfind] at hrun
      have hcache : cache = cache₁ := congrArg (fun t => t.2.1) hrun
      have hd : (Except.error Denied.forbidden : AuthResult) = Except.error d :=
        congrArg (fun t => t.1) hrun
      rw [maybe_authenticate_some_some,
        authenticate_username_not_found verify store auth dh cache₁ hfind]
      exact ⟨by rw [← hd], fun _ => by simp⟩
  · obtain ⟨u, h⟩ := p
    have key_eq :
        ∀ c₁, maybe_authenticate verify (some (store, dh)) (some auth) c₁ =
          ((orInsertWithIf c₁ (auth.username, auth.password)
              (fun _ => verifyOutcome verify auth.password h) isErr).1,
            (orInsertWithIf c₁ (auth.username, auth.password)
              (fun _ => verifyOutcome verify auth.password h) isErr).2.1,
            if (orInsertWithIf c₁ (auth.username, auth.password)
                (fun _ => verifyOutcome verify auth.password h) isErr).2.2 then
              [(auth.password, h)]
            else []) := fun c₁ =>
      (maybe_authenticate_some_some verify store auth dh c₁).trans
        (authenticate_username_found verify store auth dh c₁ u h hfind)
    refine ⟨?_, ?_⟩
    · intro g cache₁ calls hrun
      rw [key_eq cache] at hrun
      rw [key_eq cache₁]
      rcases hc : alistGet cache (auth.username, auth.password) with _ | r
      · rw [orInsertWithIf_absent _ _ _ _ hc] at hrun
        have hv : verifyOutcome verify auth.password h = .ok g :=
          congrArg (fun t => t.1) hrun
        have hcache : alistInsert cache (auth.username, auth.password)
            (verifyOutcome verify auth.password h) = cache₁ :=
          congrArg (fun t => t.2.1) hrun
        have hget : alistGet cache₁ (auth.username, auth.password) =
            some (Except.ok g) := by
          rw [← hcache, hv]
          exact alistGet_alistInsert_self _ _ _
        rw [orInsertWithIf_keep _ _ _ _ (Except.ok g) hget (by simp [isErr])]
        rfl
      · by_cases he : isErr r = true
        · rw [orInsertWithIf_replace _ _ _ _ r hc he] at hrun
          have hv : verifyOutcome verify auth.password h = .ok g :=
            congrArg (fun t => t.1) hrun
          have hcache : alistInsert cache (auth.username, auth.password)
              (verifyOutcome verify auth.password h) = cache₁ :=
            congrArg (fun t => t.2.1) hrun
          have hget : alistGet cache₁ (auth.username, auth.password) =
              some (Except.ok g) := by
            rw [← hcache, hv]
            exact alistGet_alistInsert_self _ _ _
          rw [orInsertWithIf_keep _ _ _ _ (Except.ok g) hget (by simp [isErr])]
          rfl
        · rw [Bool.not_eq_true] at he
          rw [orInsertWithIf_keep _ _ _ _ r hc he] at hrun
          have hr : r = .ok g := congrArg (fun t => t.1) hrun
          have hcache : cache = cache₁ := congrArg (fun t => t.2.1) hrun
          rw [← hcache, orInsertWithIf_keep _ _ _ _ r hc he, hr]
          rfl
    · intro d cache₁ calls hrun
      rw [key_eq cache] at hrun
      rw [key_eq cache₁]
      rcases hc : alistGet cache (auth.username, auth.password) with _ | r
      · rw [orInsertWithIf_absent _ _ _ _ hc] at hrun
        have hv : verifyOutcome verify auth.password h = .error d :=
          congrArg (fun t => t.1) hrun
        have hcache : alistInsert cache (auth.username, auth.password)
            (verifyOutcome verify auth.password h) = cache₁ :=
          congrArg (fun t => t.2.1) hrun
        have hget : alistGet cache₁ (auth.username, auth.password) =
            some (Except.error d) := by
          rw [← hcache, hv]
          exact alistGet_alistInsert_self _ _ _
        rw [orInsertWithIf_replace _ _ _ _ (Except.error d) hget (by simp [isErr])]
        exact ⟨hv, fun _ => by simp⟩
      · by_cases he : isErr r = true
        · rw [orInsertWithIf_replace _ _ _ _ r hc he] at hrun
          have hv : verifyOutcome verify auth.password h = .error d :=
            congrArg (fun t => t.1) hrun
          have hcache : alistInsert cache (auth.username, auth.password)
              (verifyOutcome verify auth.password h) = cache₁ :=
            congrArg (fun t => t.2.1) hrun
          have hget : alistGet cache₁ (auth.username, auth.password) =
              some (Except.error d) := by
            rw [← hcache, hv]
            exact alistGet_alistInsert_self _ _ _
          rw [orInsertWithIf_replace _ _ _ _ (Except.error d) hget (by simp [isErr])]
          exact ⟨hv, fun _ => by simp⟩
        · rw [Bool.not_eq_true] at he
          rw [orInsertWithIf_keep _ _ _ _ r hc he] at hrun
          have hr : r = .error d := congrArg (fun t => t.1) hrun
          rw [hr] at he
          exact absurd he (by simp [isErr])

/-- Claim C5 (amended) witness. -/
theorem c5_auth_cache_witness :
    (maybe_authenticate (fun _ _ => Except.ok true)
        (some ([("joanna", "H1")], "DH")) (some ⟨"joanna", "secret"⟩)
        [(("joanna", "secret"), Except.ok Granted.succeeded)] =
      (.ok .succeeded, [(("joanna", "secret"), Except.ok Granted.succeeded)], [])) ∧
    ((maybe_authenticate (fun _ _ => Except.ok false)
        (some ([("joanna", "H1")], "DH")) (some ⟨"joanna", "bad"⟩)
        [(("joanna", "bad"), Except.error Denied.forbidden)]).1 =
        .error .forbidden ∧
      (maybe_authenticate (fun _ _ => Except.ok false)
        (some ([("joanna", "H1")], "DH")) (some ⟨"joanna", "bad"⟩)
        [(("joanna", "bad"), Except.error Denied.forbidden)]).2.2 ≠ []) := by
  obtain ⟨hg, -⟩ := c5_auth_cache_grants_memoized_denials_reverified
    (fun _ _ => Except.ok true) [("joanna", "H1")] ⟨"joanna", "secret"⟩ "DH" []
  obtain ⟨-, hd⟩ := c5_auth_cache_grants_memoized_denials_reverified
    (fun _ _ => Except.ok false) [("joanna", "H1")] ⟨"joanna", "bad"⟩ "DH" []
  constructor
  · exact hg Granted.succeeded
      [(("joanna", "secret"), Except.ok Granted.succeeded)] [("secret", "H1")] rfl
  · have hstep := hd Denied.forbidden
      [(("joanna", "bad"), Except.error Denied.forbidden)] [("bad", "H1")] rfl
    exact ⟨hstep.1, hstep.2 (by decide)⟩

/-- Claim C6: a provider failure never suppresses the other results —
removing or inserting a failed task outcome anywhere leaves the
response unchanged; when the encoder succeeds on the collected
successes the response is `200 OK` with the encoded body (also when
zero tasks succeeded, where the aggregate is empty); the fixed 500
response with body "Error while fetching weather data. Check the
logs" occurs exactly when the encoder itself fails — and the concrete
encoder model never fails, so `serve_metrics` with it always returns
200. -/
theorem c6_provider_failure_isolation
    (encode : Format → List Weather → Except String String) (format : Format) :
    (∀ xs ys (e : String),
      serve_metrics encode format (xs ++ .error e :: ys) =
        serve_metrics encode format (xs ++ ys)) ∧
    (∀ results body,
      encode format (results.filterMap (fun r => r.toOption)) = .ok body →
      serve_metrics encode format results = (200, body)) ∧
    (∀ results e,
      encode format (results.filterMap (fun r => r.toOption)) = .error e →
      serve_metrics encode format results =
        (500, "Error while fetching weather data. Check the logs")) ∧
    (∀ results : List (Except String Weather), (∀ r ∈ results, isErr r = true) →
      wait_for_metrics encode format results = encode format []) ∧
    (∀ results,
      serve_metrics format_metrics_result format results =
        (200, String.intercalate "\n" (format_metrics format
          (results.filterMap (fun r => r.toOption))) ++ "\n")) := by
  refine ⟨?_, ?_, ?_, ?_, ?_⟩
  · intro xs ys e
    unfold serve_metrics wait_for_metrics
    rw [List.filterMap_append, List.filterMap_append, List.filterMap_cons]
    simp [Except.toOption]
  · intro results body h
    unfold serve_metrics wait_for_metrics
    rw [h]
  · intro results e h
    unfold serve_metrics wait_for_metrics
    rw [h]
  · intro results hall
    unfold wait_for_metrics
    have hnil : results.filterMap (fun r => r.toOption) = [] := by
      rw [List.filterMap_eq_nil_iff]
      intro r hr
      have := hall r hr
      cases r with
      | ok a => exact absurd this (by simp [isErr])
      | error e => rfl
    rw [hnil]
  · intro results
    unfold serve_metrics wait_for_metrics format_metrics_result
    rfl

/-- Claim C6 witness. -/
theorem c6_provider_failure_isolation_witness :
    (serve_metrics (fun _ _ => Except.ok "B") .prometheus
        [Except.error "provider down"] =
      serve_metrics (fun _ _ => Except.ok "B") .prometheus []) ∧
    (serve_metrics (fun _ _ => Except.ok "B") .prometheus
        [Except.error "provider down"] = (200, "B")) ∧
    (serve_metrics (fun _ _ => Except.error "encoder broke") .prometheus [] =
      (500, "Error while fetching weather data. Check the logs")) ∧
    (wait_for_metrics (fun _ _ => Except.ok "B") .prometheus
        [Except.error "a", Except.error "b"] =
      (fun (_ : Format) (_ : List Weather) => Except.ok "B") .prometheus []) := by
  obtain ⟨hiso, hok, herr, hempty, -⟩ :=
    c6_provider_failure_isolation (fun _ _ => Except.ok "B") .prometheus
  obtain ⟨-, -, herr2, -, -⟩ :=
    c6_provider_failure_isolation (fun _ _ => Except.error "encoder broke")
      .prometheus
  refine ⟨hiso [] [] "provider down", hok [Except.error "provider down"] "B" rfl,
    herr2 [] "encoder broke" rfl, ?_⟩
  exact hempty [Except.error "a", Except.error "b"] (by decide)

/-- Claim C10: the Weather record built by `Meteoblue::for_coordinates`
takes the response metadata name as its city when that name is
non-empty and falls back to the request display name otherwise, so an
empty upstream city name never reaches the emitted record. -/
theorem c10_meteoblue_city_fallback
    (calc_distance : Coordinates → Coordinates → ℚ)
    (request : WeatherRequest) (response : MeteoblueResponse) :
    (response.metadata.name ≠ "" →
      (meteoblue_weather calc_distance request response).city =
        response.metadata.name) ∧
    (response.metadata.name = "" →
      (meteoblue_weather calc_distance request response).city = request.name) ∧
    (request.name ≠ "" →
      (meteoblue_weather calc_distance request response).city ≠ "") := by
  unfold meteoblue_weather
  by_cases h : response.metadata.name = ""
  · exact ⟨fun hne => absurd h hne, fun _ => by simp [h], fun hreq => by simp [h, hreq]⟩
  · exact ⟨fun _ => by simp [h], fun he => absurd he h, fun _ => by simp [h]⟩

/-- Claim C10 witness. -/
theorem c10_meteoblue_city_fallback_witness :
    (meteoblue_weather (fun _ _ => 0) ⟨"My Place", ⟨1, 2⟩⟩
        ⟨⟨"Uptown", ⟨1, 2⟩⟩, 21⟩).city = "Uptown" ∧
    (meteoblue_weather (fun _ _ => 0) ⟨"My Place", ⟨1, 2⟩⟩
        ⟨⟨"", ⟨1, 2⟩⟩, 21⟩).city = "My Place" ∧
    (meteoblue_weather (fun _ _ => 0) ⟨"My Place", ⟨1, 2⟩⟩
        ⟨⟨"", ⟨1, 2⟩⟩, 21⟩).city ≠ "" := by
  obtain ⟨h1, -, -⟩ := c10_meteoblue_city_fallback (fun _ _ => 0)
    ⟨"My Place", ⟨1, 2⟩⟩ ⟨⟨"Uptown", ⟨1, 2⟩⟩, 21⟩
  obtain ⟨-, h2, h3⟩ := c10_meteoblue_city_fallback (fun _ _ => 0)
    ⟨"My Place", ⟨1, 2⟩⟩ ⟨⟨"", ⟨1, 2⟩⟩, 21⟩
  exact ⟨h1 (by decide), h2 rfl, h3 (by decide)⟩

/-- Claim C7 counterexample: the comparator returns `Greater` whenever
the right entry lacks a weight, so two weightless entries are never
ordered by the specificity or parameter-count tie-breaks — the stable
sort keeps their input order.  With the input `text/*, text/plain`
(both weightless) the code keeps `text/*` first, while the claimed
total order demands `text/plain` (higher specificity) first; with
`text/*, application/openmetrics-text` the chosen format is
Prometheus, while walking the claimed order would yield OpenMetrics. -/
theorem c7_sort_total_order_counterexample :
    sort_media_types_by_priority
        [⟨⟨"text", "*", []⟩, none⟩, ⟨⟨"text", "plain", []⟩, none⟩] =
      [⟨⟨"text", "*", []⟩, none⟩, ⟨⟨"text", "plain", []⟩, none⟩] ∧
    sortByLt claimLt
        [⟨⟨"text", "*", []⟩, none⟩, ⟨⟨"text", "plain", []⟩, none⟩] =
      [⟨⟨"text", "plain", []⟩, none⟩, ⟨⟨"text", "*", []⟩, none⟩] ∧
    get_metrics_format
        [⟨⟨"text", "*", []⟩, none⟩,
          ⟨⟨"application", "openmetrics-text", []⟩, none⟩] = .prometheus ∧
    walkFormats (sortByLt claimLt
        [⟨⟨"text", "*", []⟩, none⟩,
          ⟨⟨"application", "openmetrics-text", []⟩, none⟩]) = .openMetrics := by
  refine ⟨?_, ?_, ?_, ?_⟩ <;> decide

/-- Claim C7 (amended): content negotiation is deterministic; the sort
is a stable insertion sort whose strict order agrees with the claimed
order except that two entries both lacking a quality weight are tied —
absence of a weight ranks above any weight, weighted entries rank by
descending weight, then descending specificity, then descending
parameter count, and weightless entries keep their relative input
order.  The sorted list is a permutation of the input, consecutive
entries never strictly precede their predecessors, and the result is
walked returning OpenMetrics on the first `application/openmetrics-
text` match (same-top wildcards honoured), Prometheus otherwise, with
Prometheus for an empty Accept header. -/
theorem c7_negotiation_amended (accept : List QMediaType) :
    (sort_media_types_by_priority accept).Perm accept ∧
    (sort_media_types_by_priority accept).Pairwise
      (fun a b => mediaLt b a = false) ∧
    (∀ a b, mediaLt a b = true ↔ specLtAmended a b) ∧
    (sort_media_types_by_priority accept).filter (fun m => m.weight.isNone) =
      accept.filter (fun m => m.weight.isNone) ∧
    get_metrics_format [] = .prometheus ∧
    get_metrics_format accept = walkFormats (sort_media_types_by_priority accept) := by
  refine ⟨sortByLt_perm mediaLt accept,
    sortByLt_pairwise mediaLt mediaLt_asymm mediaLt_shift accept,
    mediaLt_iff_specLtAmended, ?_, rfl, rfl⟩
  refine sortByLt_filter mediaLt _ ?_ accept
  intro a b _ hb
  refine mediaLt_none_right a b ?_
  rcases hw : b.weight with _ | w
  · rfl
  · rw [hw] at hb
    exact absurd hb (by simp)

/-- Claim C8 counterexample: `format_metrics` ignores its format
argument (`_format` in the source) and always runs the OpenMetrics
text encoder, so output requested in the Prometheus format also ends
with the `# EOF` trailer — the repository's own encoder tests assert
exactly this. -/
theorem c8_prometheus_trailer_counterexample :
    (format_metrics .prometheus []).getLast? = some "# EOF" ∧
    (format_metrics .prometheus
        [⟨"My Name", "org.example", "Some City", ⟨201 / 10, 1001234 / 100000⟩,
          none, 51 / 2, none⟩]).getLast? = some "# EOF" := by
  constructor <;> rfl

/-- Claim C8 (amended): the encoder output is identical for both
formats and always ends with the `# EOF` trailer; the temperature
family is always emitted with its `# HELP`, `# TYPE` and `# UNIT`
lines, and the lazily registered humidity and distance families carry
their three metadata lines whenever a record triggers them. -/
theorem c8_encoder_trailer_and_meta_lines (format : Format) (ws : List Weather) :
    (format_metrics format ws).getLast? = some "# EOF" ∧
    format_metrics format ws = format_metrics .openMetrics ws ∧
    ("# HELP weather_temperature_celsius prometheus-weathermen temperature." ∈
        format_metrics format ws ∧
      "# TYPE weather_temperature_celsius gauge" ∈ format_metrics format ws ∧
      "# UNIT weather_temperature_celsius celsius" ∈ format_metrics format ws) ∧
    ((∃ w ∈ ws, w.relative_humidity.isSome) →
      "# HELP weather_relative_humidity_ratio prometheus-weathermen relative humidity." ∈
          format_metrics format ws ∧
        "# TYPE weather_relative_humidity_ratio gauge" ∈ format_metrics format ws ∧
        "# UNIT weather_relative_humidity_ratio ratio" ∈ format_metrics format ws) ∧
    ((∃ w ∈ ws, w.distance.isSome) →
      "# HELP weather_station_distance_meters prometheus-weathermen weather station distance in meters." ∈
          format_metrics format ws ∧
        "# TYPE weather_station_distance_meters gauge" ∈ format_metrics format ws ∧
        "# UNIT weather_station_distance_meters meters" ∈ format_metrics format ws) := by
  refine ⟨?_, rfl, ?_, ?_, ?_⟩
  · unfold format_metrics
    exact List.getLast?_concat _
  · unfold format_metrics
    refine ⟨?_, ?_, ?_⟩ <;>
      · rw [List.mem_append]
        left
        rw [List.mem_append]
        left
        simp [familyLines, NAME]
  · intro hex
    have hmem : LazyFamily.humidity ∈
        (ws.foldl encodeStep ⟨[], [], [], []⟩).lazyOrder := by
      rw [foldl_encodeStep_lazyOrder_mem ws ⟨[], [], [], []⟩ .humidity]
      right
      obtain ⟨w, hw, hh⟩ := hex
      exact ⟨w, hw, by simpa [famTrigger] using hh⟩
    unfold format_metrics
    refine ⟨?_, ?_, ?_⟩ <;>
      · rw [List.mem_append]
        left
        rw [List.mem_append]
        right
        rw [List.mem_flatten]
        refine ⟨lazyFamilyLines (ws.foldl encodeStep ⟨[], [], [], []⟩) .humidity,
          List.mem_map_of_mem _ hmem, ?_⟩
        simp [lazyFamilyLines, familyLines, NAME]
  · intro hex
    have hmem : LazyFamily.distance ∈
        (ws.foldl encodeStep ⟨[], [], [], []⟩).lazyOrder := by
      rw [foldl_encodeStep_lazyOrder_mem ws ⟨[], [], [], []⟩ .distance]
      right
      obtain ⟨w, hw, hh⟩ := hex
      exact ⟨w, hw, by simpa [famTrigger] using hh⟩
    unfold format_metrics
    refine ⟨?_, ?_, ?_⟩ <;>
      · rw [List.mem_append]
        left
        rw [List.mem_append]
        right
        rw [List.mem_flatten]
        refine ⟨lazyFamilyLines (ws.foldl encodeStep ⟨[], [], [], []⟩) .distance,
          List.mem_map_of_mem _ hmem, ?_⟩
        simp [lazyFamilyLines, familyLines, NAME]

/-- Claim C8 (amended) witness. -/
theorem c8_encoder_trailer_and_meta_lines_witness :
    (format_metrics .prometheus
        [⟨"L", "org.example", "C", ⟨1, 2⟩, some 100, 5, some (.fraction (1 / 2))⟩]).getLast? =
      some "# EOF" ∧
    "# UNIT weather_relative_humidity_ratio ratio" ∈
      format_metrics .prometheus
        [⟨"L", "org.example", "C", ⟨1, 2⟩, some 100, 5, some (.fraction (1 / 2))⟩] ∧
    "# UNIT weather_station_distance_meters meters" ∈
      format_metrics .prometheus
        [⟨"L", "org.example", "C", ⟨1, 2⟩, some 100, 5, some (.fraction (1 / 2))⟩] := by
  obtain ⟨heof, -, -, hhum, hdist⟩ := c8_encoder_trailer_and_meta_lines .prometheus
    [⟨"L", "org.example", "C", ⟨1, 2⟩, some 100, 5, some (.fraction (1 / 2))⟩]
  refine ⟨heof, ?_, ?_⟩
  · exact (hhum ⟨_, List.mem_cons_self _ _, rfl⟩).2.2
  · exact (hdist ⟨_, List.mem_cons_self _ _, rfl⟩).2.2

/-- Claim C9 counterexample: the winning station is re-identified by
`Coordinate` equality with tolerance `1e-7`, so a station that lies
within `1e-7` of the true minimizer but earlier in the list is
returned instead of the minimizer: with the request at the origin,
station A at longitude `2^-24 ≈ 6e-8` (within tolerance of B) is
returned although station B at the origin is strictly closer. -/
theorem c9_nearest_station_counterexample :
    find_closest_weather_station ⟨0, 0⟩
        [⟨"A", "Station A", 0, 1 / 16777216⟩, ⟨"B", "Station B", 0, 0⟩] =
      .ok ⟨"A", "Station A", 0, 1 / 16777216⟩ ∧
    distSq (stationPoint ⟨"B", "Station B", 0, 0⟩) (0, 0) <
      distSq (stationPoint ⟨"A", "Station A", 0, 1 / 16777216⟩) (0, 0) ∧
    (⟨"B", "Station B", 0, 0⟩ : WeatherStation) ∈
      [(⟨"A", "Station A", 0, 1 / 16777216⟩ : WeatherStation),
        ⟨"B", "Station B", 0, 0⟩] := by
  have hcEqA : coordinateEq ((1 : ℚ) / 16777216) 0 = true := by
    simp only [coordinateEq, decide_eq_true_eq, sub_zero]
    rw [abs_of_pos (by norm_num)]
    norm_num
  have hcEq0 : coordinateEq (0 : ℚ) 0 = true := by
    simp only [coordinateEq, decide_eq_true_eq, sub_zero, abs_zero]
    norm_num
  have hcp : closest_point [((1 : ℚ) / 16777216, (0 : ℚ)), ((0 : ℚ), (0 : ℚ))]
      ((0 : ℚ), (0 : ℚ)) = some (0, 0) := by
    unfold closest_point
    simp only [List.foldl]
    rw [if_pos (by norm_num [distSq])]
  refine ⟨?_, by norm_num [distSq, stationPoint], by simp⟩
  unfold find_closest_weather_station
  simp only [List.map, stationPoint]
  rw [hcp]
  simp only [List.find?, hcEqA, hcEq0, Bool.and_self, Bool.and_true]

/-- Claim C9 (amended): for a non-empty station list the function
returns some station of the list; the returned station is the first
one in iteration order whose longitude and latitude are each within
`1e-7` of those of a planar-distance-minimizing station — in
particular it is within coordinate tolerance of a minimizer, but need
not itself minimize the distance. -/
theorem c9_nearest_station_amended (coords : Coordinates)
    (stations : List WeatherStation) :
    (stations ≠ [] →
      ∃ s, find_closest_weather_station coords stations = .ok s) ∧
    (∀ s, find_closest_weather_station coords stations = .ok s →
      s ∈ stations ∧
      ∃ m ∈ stations,
        (∀ t ∈ stations,
          distSq (stationPoint m) (coords.longitude, coords.latitude) ≤
            distSq (stationPoint t) (coords.longitude, coords.latitude)) ∧
        coordinateEq s.longitude m.longitude = true ∧
        coordinateEq s.latitude m.latitude = true ∧
        stations.find? (fun station =>
          coordinateEq station.longitude m.longitude &&
            coordinateEq station.latitude m.latitude) = some s) := by
  constructor
  · intro hne
    have hmapne : stations.map stationPoint ≠ [] := by
      simpa using hne
    obtain ⟨c, hcp, hcmem, -⟩ := closest_point_spec (stations.map stationPoint)
      (coords.longitude, coords.latitude) hmapne
    obtain ⟨m, hm, hmp⟩ := List.mem_map.mp hcmem
    have hsat : ∃ station ∈ stations,
        (coordinateEq station.longitude c.1 &&
          coordinateEq station.latitude c.2) = true := by
      refine ⟨m, hm, ?_⟩
      rw [← hmp]
      simp [stationPoint, coordinateEq_refl]
    have hfind : (stations.find? (fun station =>
        coordinateEq station.longitude c.1 &&
          coordinateEq station.latitude c.2)).isSome := by
      rw [List.find?_isSome]
      simpa using hsat
    rcases hfq : stations.find? (fun station =>
        coordinateEq station.longitude c.1 &&
          coordinateEq station.latitude c.2) with _ | s
    · rw [hfq] at hfind
      simp at hfind
    · refine ⟨s, ?_⟩
      unfold find_closest_weather_station
      simp only [hcp, hfq]
  · intro s hok
    unfold find_closest_weather_station at hok
    rcases hcp : closest_point (stations.map stationPoint)
        (coords.longitude, coords.latitude) with _ | c <;> simp only [hcp] at hok
    · cases hok
    · rcases hfq : stations.find? (fun station =>
          coordinateEq station.longitude c.1 &&
            coordinateEq station.latitude c.2) with _ | s₀ <;> simp only [hfq] at hok
      · cases hok
      · have hss : s₀ = s := by cases hok; rfl
        rw [hss] at hfq
        have hne : stations ≠ [] := by
          intro hnil
          rw [hnil] at hcp
          simp [closest_point] at hcp
        have hmapne : stations.map stationPoint ≠ [] := by simpa using hne
        obtain ⟨c', hcp', hcmem, hmin⟩ := closest_point_spec
          (stations.map stationPoint) (coords.longitude, coords.latitude) hmapne
        rw [hcp] at hcp'
        have hcc : c' = c := by cases hcp'; rfl
        rw [hcc] at hcmem hmin
        obtain ⟨m, hm, hmp⟩ := List.mem_map.mp hcmem
        refine ⟨List.mem_of_find?_eq_some hfq, m, hm, ?_, ?_, ?_, ?_⟩
        · intro t ht
          rw [hmp]
          exact hmin (stationPoint t) (List.mem_map_of_mem _ ht)
        · have hpred := List.find?_some hfq
          rw [← hmp] at hpred
          simp only [stationPoint, Bool.and_eq_true] at hpred
          exact hpred.1
        · have hpred := List.find?_some hfq
          rw [← hmp] at hpred
          simp only [stationPoint, Bool.and_eq_true] at hpred
          exact hpred.2
        · rw [← hmp] at hfq
          simp only [stationPoint] at hfq
          exact hfq

/-- Claim C9 (amended) witness. -/
theorem c9_nearest_station_amended_witness :
    ∃ s, find_closest_weather_station
        ⟨4811591 / 100000, 11570906 / 1000000⟩
        [⟨"03379", "Muenchen-Stadt", 481632 / 10000, 115429 / 10000⟩,
          ⟨"01262", "Muenchen-Flughafen", 483477 / 10000, 118134 / 10000⟩] =
      .ok s ∧
    s ∈ [(⟨"03379", "Muenchen-Stadt", 481632 / 10000, 115429 / 10000⟩ : WeatherStation),
      ⟨"01262", "Muenchen-Flughafen", 483477 / 10000, 118134 / 10000⟩] := by
  obtain ⟨hex, hchar⟩ := c9_nearest_station_amended
    ⟨4811591 / 100000, 11570906 / 1000000⟩
    [⟨"03379", "Muenchen-Stadt", 481632 / 10000, 115429 / 10000⟩,
      ⟨"01262", "Muenchen-Flughafen", 483477 / 10000, 118134 / 10000⟩]
  obtain ⟨s, hok⟩ := hex (by decide)
  exact ⟨s, hok, (hchar s hok).1⟩

end Weathermen
